import Mathlib

/-!
Shallow embedding of the symgraph symbol-graph store (repository
revitalyr/symgraph), covering the two storage realizations:

* the relational (SQLite) realization in `crates/symgraph-core/src/lib.rs`
  (struct `Db` and the free functions `insert_symbol`, `insert_occurrence`,
  `insert_edge`, `upsert_module`), embedded in namespace `Sqlite`;
* the key-value (sled) realization in `crates/symgraph-core/src/database.rs`
  (struct `SymgraphDb` and its free functions), embedded in namespace `Sled`.

Modelling conventions, stated once here:

* Machine integers (`i64` rowids, `u32` line/column) are modelled as `Nat`:
  no arithmetic in the embedded code can overflow (ids only increment).
* `sled` keys are strings of the form `"file:{path}"`, `"file:{id}"`,
  `"symbol:{id}"`, `"symbol_by_usr:{usr}"`, `"edge:{id}"`,
  `"edges_from:{from}:{kind}:{edge_id}"`, `"module:{name}"`,
  `"module:{id}"`, `"project:{root}"`, `"project:{id}"`.  They are modelled
  as structured keys (one constructor per format string), with the two key
  shapes that share one namespace (path/name keys and id keys under
  `file:` / `module:` / `project:`) sharing one scan namespace, exactly as
  the string encoding shares the namespace before the first colon.  A v4
  UUID never collides with a caller-supplied path/name/root string, which
  the structured key type records by keeping the two constructors disjoint.
* `Uuid::new_v4()` produces opaque fresh identifiers; the model draws them
  from per-entity counters (any injective fresh-name supply is an
  isomorphic model of v4 UUID generation; a UUID that is generated and then
  discarded without being stored is not modelled, since it is unobservable).
  SQLite rowids are likewise modelled as per-table counters starting at 1.
* The sled store is modelled as an insertion-ordered association list with
  `insert` overwriting an existing key in place; `scan_prefix` enumerates
  the matching entries.  Real sled enumerates in lexicographic key order,
  so every theorem about a scan result is stated up to permutation (or
  about counts/membership), never about a particular enumeration order.
* `Result`-typed Rust functions can only fail on storage I/O or on
  deserializing a value of the wrong shape; the typed store makes the
  latter impossible on the namespaces the modelled operations touch, and
  I/O failure is outside a shallow embedding, so operations are total.
* `schema.sql` is loaded via `include_str!` in `Db::open` but is not under
  `src/`; where its content decides behavior it is modelled from the spec,
  marked `Modelled from the spec:` at the definition.
-/

namespace Symgraph

/-- Association-list lookup: the value of the first entry with the given
key, mirroring a point `get` on the sled key-value store. -/
def assocFind {κ α : Type} [DecidableEq κ] (l : List (κ × α)) (k : κ) : Option α :=
  (l.find? (fun e => decide (e.1 = k))).map (fun e => e.2)

/-- Association-list insert with overwrite, mirroring `sled::Db::insert`:
if the key is present its value is replaced, otherwise the entry is
appended. -/
def assocInsert {κ α : Type} [DecidableEq κ] (l : List (κ × α)) (k : κ) (v : α) :
    List (κ × α) :=
  if l.any (fun e => decide (e.1 = k)) then
    l.map (fun e => if e.1 = k then (k, v) else e)
  else l ++ [(k, v)]

/-- Symbol record (`database.rs` struct `Symbol`; the SQLite `symbols` table
has the same columns, so both realizations share this record). -/
structure Symbol where
  id : Nat
  file_id : Nat
  usr : Option String
  key : Option String
  name : String
  kind : String
  is_definition : Bool
deriving DecidableEq

/-- Occurrence record (`database.rs` struct `Occurrence`; same columns as the
SQLite `occurrences` table). -/
structure Occurrence where
  id : Nat
  symbol_id : Nat
  file_id : Nat
  usage_kind : String
  line : Nat
  column : Nat
deriving DecidableEq

/-- Edge record (`database.rs` struct `Edge`; same columns as the SQLite
`edges` table). -/
structure Edge where
  id : Nat
  from_sym : Option Nat
  to_sym : Option Nat
  from_module : Option Nat
  to_module : Option Nat
  kind : String
deriving DecidableEq

namespace Sled

/-- Project record (`database.rs` struct `Project`).  The Rust field
`structure` is a Lean keyword and is embedded as `structure_`. -/
structure Project where
  id : Nat
  name : String
  root_path : String
  description : Option String
  purpose : Option String
  structure_ : Option String
  dependencies : Option String
  created_at : String
deriving DecidableEq

/-- Module record (`database.rs` struct `Module`). -/
structure Module where
  id : Nat
  project_id : String
  name : String
  kind : String
  path : Option String
deriving DecidableEq

/-- File record (`database.rs` struct `File`). -/
structure File where
  id : Nat
  project_id : String
  module_id : Option Nat
  path : String
  lang : String
  category : Option String
  purpose : Option String
deriving DecidableEq

/-- Key shapes of the `project:` namespace: `"project:{root_path}"` written
by `ensure_project`, and `"project:{id}"` written beside it. -/
inductive ProjKey where
  | byRoot (root : String)
  | byId (id : Nat)
deriving DecidableEq

/-- Key shapes of the `file:` namespace: `"file:{path}"` and `"file:{id}"`,
both written by `ensure_file_with_category`. -/
inductive FileKey where
  | byPath (path : String)
  | byId (id : Nat)
deriving DecidableEq

/-- Key shapes of the `module:` namespace: `"module:{name}"` and
`"module:{id}"`, both written by `upsert_module`. -/
inductive ModKey where
  | byName (name : String)
  | byId (id : Nat)
deriving DecidableEq

/-- The sled store (`database.rs` struct `SymgraphDb`), split by key
namespace.  Each component is an insertion-ordered association list; the
`next*` counters model fresh v4 UUID generation (see the header comment).
The `scip_*` namespaces are not touched by any modelled operation and are
omitted. -/
structure SymgraphDb where
  projects : List (ProjKey × Project)
  files : List (FileKey × File)
  modules : List (ModKey × Module)
  symbols : List (Nat × Symbol)
  symbolByUsr : List (String × Nat)
  occurrences : List (Nat × Occurrence)
  edges : List (Nat × Edge)
  edgesFrom : List ((Nat × String × Nat) × Edge)
  nextProjectId : Nat
  nextFileId : Nat
  nextModuleId : Nat
  nextSymbolId : Nat
  nextOccId : Nat
  nextEdgeId : Nat
deriving DecidableEq

/-- The store produced by `sled::open` on a fresh path. -/
def emptyDb : SymgraphDb :=
  ⟨[], [], [], [], [], [], [], [], 1, 1, 1, 1, 1, 1⟩

/-- `SymgraphDb::ensure_project` (database.rs:91-116): look up
`"project:{root_path}"`; if present return the stored project's id without
writing; otherwise store a new record (annotation fields `None`) under both
the root key and the id key.  `now` stands for the `chrono::Utc::now()`
timestamp read inside the function. -/
def ensure_project (st : SymgraphDb) (name root_path now : String) : Nat × SymgraphDb :=
  match assocFind st.projects (ProjKey.byRoot root_path) with
  | some existing => (existing.id, st)
  | none =>
    let pid := st.nextProjectId
    let p : Project := ⟨pid, name, root_path, none, none, none, none, now⟩
    (pid, { st with
      projects := assocInsert (assocInsert st.projects (ProjKey.byRoot root_path) p)
        (ProjKey.byId pid) p
      nextProjectId := pid + 1 })

/-- `SymgraphDb::ensure_file_with_category` (database.rs:133-156): look up
`"file:{path}"`; if present return the stored file's id without writing
(category/purpose arguments are dropped); otherwise store a new record
under both the path key and the id key. -/
def ensure_file_with_category (st : SymgraphDb) (project_id : String)
    (path lang : String) (category purpose : Option String) : Nat × SymgraphDb :=
  match assocFind st.files (FileKey.byPath path) with
  | some existing => (existing.id, st)
  | none =>
    let fid := st.nextFileId
    let f : File := ⟨fid, project_id, none, path, lang, category, purpose⟩
    (fid, { st with
      files := assocInsert (assocInsert st.files (FileKey.byPath path) f)
        (FileKey.byId fid) f
      nextFileId := fid + 1 })

/-- `SymgraphDb::ensure_file` (database.rs:158-160): delegates with
project id `"1"` and no category/purpose. -/
def ensure_file (st : SymgraphDb) (path lang : String) : Nat × SymgraphDb :=
  ensure_file_with_category st "1" path lang none none

/-- `SymgraphDb::find_symbol_by_usr` (database.rs:162-169): point lookup of
`"symbol_by_usr:{usr}"`. -/
def find_symbol_by_usr (st : SymgraphDb) (usr : String) : Option Nat :=
  assocFind st.symbolByUsr usr

/-- `SymgraphDb::query_edges_by_kind_from` (database.rs:171-190): resolve
the usr via the index; on a miss return the empty list; on a hit prefix-scan
`"edges_from:{id}:{kind}:"` and, for each stored edge value with a present
`to_sym` whose `"symbol:{to_sym}"` record exists, emit that symbol's name. -/
def query_edges_by_kind_from (st : SymgraphDb) (kind from_usr : String) : List String :=
  match find_symbol_by_usr st from_usr with
  | none => []
  | some sid =>
    (st.edgesFrom.filter (fun ent => decide (ent.1.1 = sid) && decide (ent.1.2.1 = kind))).filterMap
      (fun ent =>
        match ent.2.to_sym with
        | none => none
        | some j => (assocFind st.symbols j).map (fun s => s.name))

/-- Free function `insert_symbol` (database.rs:193-222): always store a new
symbol record under `"symbol:{id}"`, then — when a usr is supplied — repoint
`"symbol_by_usr:{usr}"` at the new id (overwriting any previous mapping). -/
def insert_symbol (st : SymgraphDb) (file_id : Nat) (usr key : Option String)
    (name kind : String) (is_def : Bool) : Nat × SymgraphDb :=
  let sid := st.nextSymbolId
  let s : Symbol := ⟨sid, file_id, usr, key, name, kind, is_def⟩
  let st1 := { st with symbols := assocInsert st.symbols sid s, nextSymbolId := sid + 1 }
  match usr with
  | some u => (sid, { st1 with symbolByUsr := assocInsert st1.symbolByUsr u sid })
  | none => (sid, st1)

/-- Free function `insert_occurrence` (database.rs:224-247): pure append of
a record under `"occurrence:{id}"`. -/
def insert_occurrence (st : SymgraphDb) (sym_id file_id : Nat) (usage : String)
    (line col : Nat) : Nat × SymgraphDb :=
  let oid := st.nextOccId
  let o : Occurrence := ⟨oid, sym_id, file_id, usage, line, col⟩
  (oid, { st with occurrences := assocInsert st.occurrences oid o, nextOccId := oid + 1 })

/-- Free function `insert_edge` (database.rs:249-276): store the edge value
under `"edge:{id}"`; additionally, only when `from_sym` is present, store the
same value under the composite key `"edges_from:{from}:{kind}:{id}"`. -/
def insert_edge (st : SymgraphDb) (from_sym to_sym from_module to_module : Option Nat)
    (kind : String) : Nat × SymgraphDb :=
  let eid := st.nextEdgeId
  let e : Edge := ⟨eid, from_sym, to_sym, from_module, to_module, kind⟩
  let st1 := { st with edges := assocInsert st.edges eid e, nextEdgeId := eid + 1 }
  match from_sym with
  | some f => (eid, { st1 with edgesFrom := assocInsert st1.edgesFrom (f, kind, eid) e })
  | none => (eid, st1)

/-- Free function `upsert_module` (database.rs:278-298): look up
`"module:{name}"`; if present return the stored module's id without writing
(the new kind/path are dropped); otherwise store a new record (empty path
becomes `None`) under both the name key and the id key. -/
def upsert_module (st : SymgraphDb) (name kind path : String) : Nat × SymgraphDb :=
  match assocFind st.modules (ModKey.byName name) with
  | some existing => (existing.id, st)
  | none =>
    let mid := st.nextModuleId
    let m : Module := ⟨mid, "1", name, kind, if path = "" then none else some path⟩
    (mid, { st with
      modules := assocInsert (assocInsert st.modules (ModKey.byName name) m)
        (ModKey.byId mid) m
      nextModuleId := mid + 1 })

/-- Statistics record (`database.rs` struct `DatabaseStats`). -/
structure DatabaseStats where
  files : Nat
  symbols : Nat
  edges : Nat
deriving DecidableEq

/-- `SymgraphDb::get_stats` (database.rs:368-389): count the entries of the
`"file:"`, `"symbol:"` and `"edge:"` scan namespaces (the `symbol_by_usr:`,
`edges_from:` and `scip_*` namespaces do not share those string prefixes). -/
def get_stats (st : SymgraphDb) : DatabaseStats :=
  ⟨st.files.length, st.symbols.length, st.edges.length⟩

/-- Listing record (`database.rs` struct `FileInfo`). -/
structure FileInfo where
  id : Nat
  path : String
  language : String
  category : String
  purpose : String
deriving DecidableEq

/-- `SymgraphDb::list_files` (database.rs:392-407): scan the `"file:"`
namespace and project every stored value (each deserializes as a `File`,
since only `ensure_file_with_category` writes this namespace). -/
def list_files (st : SymgraphDb) : List FileInfo :=
  st.files.map (fun ent =>
    ⟨ent.2.id, ent.2.path, ent.2.lang, ent.2.category.getD "", ent.2.purpose.getD ""⟩)

end Sled

namespace Sqlite

/-- Row of the `files` table (columns used by lib.rs: id, path, lang).
Modelled from the spec: `schema.sql` (loaded by `include_str!`, not under
`src/`) declares a numeric primary key per table and uniqueness of `path`
on `files`, per §4.4 of the spec. -/
structure FileRow where
  id : Nat
  path : String
  lang : String
deriving DecidableEq

/-- Row of the `modules` table (columns id, name, kind, path).  Modelled
from the spec: `schema.sql` declares uniqueness of `name` on `modules`. -/
structure ModuleRow where
  id : Nat
  name : String
  kind : String
  path : String
deriving DecidableEq

/-- The SQLite store (`lib.rs` struct `Db`): the five tables in rowid
order plus the per-table rowid supply.  Modelled from the spec: per §4.4
the `symbols` table carries no uniqueness constraint on `usr` (repeated
insertion is not deduplicated), and a `SELECT` without `ORDER BY` on these
tables enumerates rows in rowid (insertion) order. -/
structure Db where
  files : List FileRow
  modules : List ModuleRow
  symbols : List Symbol
  occurrences : List Occurrence
  edges : List Edge
  nextFileId : Nat
  nextModuleId : Nat
  nextSymbolId : Nat
  nextOccId : Nat
  nextEdgeId : Nat
deriving DecidableEq

/-- The store produced by `Db::open` on a fresh path (empty tables, rowids
from 1). -/
def emptyDb : Db :=
  ⟨[], [], [], [], [], 1, 1, 1, 1, 1⟩

/-- `Db::ensure_file` (lib.rs:14-24): `INSERT OR IGNORE INTO files(path,
lang)` followed by `SELECT id FROM files WHERE path=?1`. -/
def ensure_file (d : Db) (path lang : String) : Nat × Db :=
  match d.files.find? (fun f => decide (f.path = path)) with
  | some f => (f.id, d)
  | none =>
    let fid := d.nextFileId
    (fid, { d with files := d.files ++ [⟨fid, path, lang⟩], nextFileId := fid + 1 })

/-- `Db::find_symbol_by_usr` (lib.rs:25-33): `SELECT id FROM symbols WHERE
usr=?1`, taking the first returned row — the symbol with the smallest
rowid among those carrying the usr. -/
def find_symbol_by_usr (d : Db) (usr : String) : Option Nat :=
  (d.symbols.find? (fun s => decide (s.usr = some usr))).map (fun s => s.id)

/-- `Db::query_edges_by_kind_from` (lib.rs:34-44): the two-way join
`edges JOIN symbols s1 ON s1.id=e.from_sym JOIN symbols s2 ON
s2.id=e.to_sym WHERE e.kind=?1 AND s1.usr=?2`, returning `s2.name` per
joined row.  Rows with a NULL `from_sym`/`to_sym` or a dangling symbol id
drop out of the inner join.  The primary key makes the per-id lookup
unique, so the join is a `filterMap` over the edges. -/
def query_edges_by_kind_from (d : Db) (kind from_usr : String) : List String :=
  d.edges.filterMap (fun e =>
    if e.kind = kind then
      match e.from_sym with
      | none => none
      | some i =>
        match d.symbols.find? (fun s => decide (s.id = i)) with
        | none => none
        | some s1 =>
          if s1.usr = some from_usr then
            match e.to_sym with
            | none => none
            | some j =>
              (d.symbols.find? (fun s => decide (s.id = j))).map (fun s => s.name)
          else none
    else none)

/-- Free function `insert_symbol` (lib.rs:47-62): plain `INSERT INTO
symbols`, returning `last_insert_rowid`. -/
def insert_symbol (d : Db) (file_id : Nat) (usr key : Option String)
    (name kind : String) (is_def : Bool) : Nat × Db :=
  let sid := d.nextSymbolId
  (sid, { d with
    symbols := d.symbols ++ [⟨sid, file_id, usr, key, name, kind, is_def⟩]
    nextSymbolId := sid + 1 })

/-- Free function `insert_occurrence` (lib.rs:64-78): plain `INSERT INTO
occurrences`. -/
def insert_occurrence (d : Db) (sym_id file_id : Nat) (usage : String)
    (line col : Nat) : Nat × Db :=
  let oid := d.nextOccId
  (oid, { d with
    occurrences := d.occurrences ++ [⟨oid, sym_id, file_id, usage, line, col⟩]
    nextOccId := oid + 1 })

/-- Free function `insert_edge` (lib.rs:80-94): plain `INSERT INTO edges`. -/
def insert_edge (d : Db) (from_sym to_sym from_module to_module : Option Nat)
    (kind : String) : Nat × Db :=
  let eid := d.nextEdgeId
  (eid, { d with
    edges := d.edges ++ [⟨eid, from_sym, to_sym, from_module, to_module, kind⟩]
    nextEdgeId := eid + 1 })

/-- Free function `upsert_module` (lib.rs:96-106): `INSERT OR IGNORE INTO
modules(name, kind, path)` followed by `SELECT id FROM modules WHERE
name=?1`. -/
def upsert_module (d : Db) (name kind path : String) : Nat × Db :=
  match d.modules.find? (fun m => decide (m.name = name)) with
  | some m => (m.id, d)
  | none =>
    let mid := d.nextModuleId
    (mid, { d with
      modules := d.modules ++ [⟨mid, name, kind, path⟩]
      nextModuleId := mid + 1 })

end Sqlite

/-- One call of the common write/query surface that both realizations
expose (the seven operations named by the spec's §4.1-4.3 that exist in
both `lib.rs` and `database.rs`).  Identifier arguments are the `Nat` ids
previously returned by either realization. -/
inductive Op where
  | ensureFile (path lang : String)
  | upsertModule (name kind path : String)
  | insertSymbol (file_id : Nat) (usr key : Option String) (name kind : String) (is_def : Bool)
  | insertOccurrence (symbol_id file_id : Nat) (usage : String) (line col : Nat)
  | insertEdge (from_sym to_sym from_module to_module : Option Nat) (kind : String)
  | findSymbol (usr : String)
  | queryEdges (kind usr : String)
deriving DecidableEq

/-- Answer of one `Op`: a returned id, a usr-lookup result, or an
edge-query name list. -/
inductive Ans where
  | idA (n : Nat)
  | foundA (r : Option Nat)
  | namesA (l : List String)
deriving DecidableEq

/-- Answers of the two realizations agree: ids and lookup results are
equal, and edge-query name lists are equal up to enumeration order (the
backends enumerate scan/join results in unspecified order). -/
def AnsRel : Ans → Ans → Prop
  | Ans.idA n, Ans.idA m => n = m
  | Ans.foundA r, Ans.foundA s => r = s
  | Ans.namesA l, Ans.namesA m => l.Perm m
  | _, _ => False

/-- One step of the SQLite realization. -/
def stepSql (d : Sqlite.Db) : Op → Sqlite.Db × Ans
  | Op.ensureFile p l =>
    let r := Sqlite.ensure_file d p l
    (r.2, Ans.idA r.1)
  | Op.upsertModule n k p =>
    let r := Sqlite.upsert_module d n k p
    (r.2, Ans.idA r.1)
  | Op.insertSymbol fid usr key nm kd df =>
    let r := Sqlite.insert_symbol d fid usr key nm kd df
    (r.2, Ans.idA r.1)
  | Op.insertOccurrence sid fid usage line col =>
    let r := Sqlite.insert_occurrence d sid fid usage line col
    (r.2, Ans.idA r.1)
  | Op.insertEdge fs ts fm tm k =>
    let r := Sqlite.insert_edge d fs ts fm tm k
    (r.2, Ans.idA r.1)
  | Op.findSymbol u => (d, Ans.foundA (Sqlite.find_symbol_by_usr d u))
  | Op.queryEdges k u => (d, Ans.namesA (Sqlite.query_edges_by_kind_from d k u))

/-- One step of the sled realization. -/
def stepSled (st : Sled.SymgraphDb) : Op → Sled.SymgraphDb × Ans
  | Op.ensureFile p l =>
    let r := Sled.ensure_file st p l
    (r.2, Ans.idA r.1)
  | Op.upsertModule n k p =>
    let r := Sled.upsert_module st n k p
    (r.2, Ans.idA r.1)
  | Op.insertSymbol fid usr key nm kd df =>
    let r := Sled.insert_symbol st fid usr key nm kd df
    (r.2, Ans.idA r.1)
  | Op.insertOccurrence sid fid usage line col =>
    let r := Sled.insert_occurrence st sid fid usage line col
    (r.2, Ans.idA r.1)
  | Op.insertEdge fs ts fm tm k =>
    let r := Sled.insert_edge st fs ts fm tm k
    (r.2, Ans.idA r.1)
  | Op.findSymbol u => (st, Ans.foundA (Sled.find_symbol_by_usr st u))
  | Op.queryEdges k u => (st, Ans.namesA (Sled.query_edges_by_kind_from st k u))

/-- Run a call sequence against the SQLite realization, collecting the
answers. -/
def runSqlFrom (d : Sqlite.Db) : List Op → Sqlite.Db × List Ans
  | [] => (d, [])
  | op :: ops =>
    let r := stepSql d op
    let rest := runSqlFrom r.1 ops
    (rest.1, r.2 :: rest.2)

/-- Run a call sequence against the sled realization, collecting the
answers. -/
def runSledFrom (st : Sled.SymgraphDb) : List Op → Sled.SymgraphDb × List Ans
  | [] => (st, [])
  | op :: ops =>
    let r := stepSled st op
    let rest := runSledFrom r.1 ops
    (rest.1, r.2 :: rest.2)

/-- The usrs supplied to the `insert_symbol` calls of a sequence, in call
order. -/
def opUsrs : List Op → List String :=
  List.filterMap (fun op =>
    match op with
    | Op.insertSymbol _ usr _ _ _ _ => usr
    | _ => none)

/-- The paths supplied to the `ensure_file` calls of a sequence, in call
order. -/
def ensPaths : List Op → List String :=
  List.filterMap (fun op =>
    match op with
    | Op.ensureFile p _ => some p
    | _ => none)

/-- The ids answered to the `ensure_file` calls of a run, in call order. -/
def ensAnswers (ops : List Op) (log : List Ans) : List Nat :=
  (ops.zip log).filterMap (fun pr =>
    match pr with
    | (Op.ensureFile _ _, Ans.idA n) => some n
    | _ => none)

/-- The sled `File` record that an `ensure_file` call of the common surface
stores for a freshly created SQLite `files` row (`database.rs` ensure_file
passes project id `"1"`, no module, no category/purpose). -/
def fileOfRow (f : Sqlite.FileRow) : Sled.File :=
  ⟨f.id, "1", none, f.path, f.lang, none, none⟩

/-- The sled `Module` record that `upsert_module` stores for a freshly
created SQLite `modules` row (project id `"1"`, empty path becomes
`None`). -/
def modOfRow (m : Sqlite.ModuleRow) : Sled.Module :=
  ⟨m.id, "1", m.name, m.kind, if m.path = "" then none else some m.path⟩

/-- The two `file:` entries that `ensure_file_with_category` writes for one
file: the path key and the id key. -/
def filePair (f : Sled.File) : List (Sled.FileKey × Sled.File) :=
  [(Sled.FileKey.byPath f.path, f), (Sled.FileKey.byId f.id, f)]

/-- The two `module:` entries that `upsert_module` writes for one module. -/
def modPair (m : Sled.Module) : List (Sled.ModKey × Sled.Module) :=
  [(Sled.ModKey.byName m.name, m), (Sled.ModKey.byId m.id, m)]

/-- Abstraction map for the refinement proof: the sled store that a call
sequence is expected to build, expressed over the SQLite store the same
sequence builds.  Defined for sequences over the common surface (which has
no `ensure_project`, so the `project:` namespace stays empty). -/
def reprSled (d : Sqlite.Db) : Sled.SymgraphDb where
  projects := []
  files := (d.files.map fileOfRow).flatMap filePair
  modules := (d.modules.map modOfRow).flatMap modPair
  symbols := d.symbols.map (fun s => (s.id, s))
  symbolByUsr := d.symbols.filterMap (fun s => s.usr.map (fun u => (u, s.id)))
  occurrences := d.occurrences.map (fun o => (o.id, o))
  edges := d.edges.map (fun e => (e.id, e))
  edgesFrom := d.edges.filterMap (fun e => e.from_sym.map (fun f => ((f, e.kind, e.id), e)))
  nextProjectId := 1
  nextFileId := d.nextFileId
  nextModuleId := d.nextModuleId
  nextSymbolId := d.nextSymbolId
  nextOccId := d.nextOccId
  nextEdgeId := d.nextEdgeId

/-- The usrs present in the SQLite `symbols` table, in rowid order. -/
def symUsrs (d : Sqlite.Db) : List String :=
  d.symbols.filterMap (fun s => s.usr)

/-- Basic well-formedness of a SQLite store: every stored id is below the
table's rowid supply, and symbol rowids are distinct.  `Db::open` yields a
well-formed store and every operation preserves it. -/
structure SqlWF (d : Sqlite.Db) : Prop where
  files_lt : ∀ f ∈ d.files, f.id < d.nextFileId
  modules_lt : ∀ m ∈ d.modules, m.id < d.nextModuleId
  symbols_lt : ∀ s ∈ d.symbols, s.id < d.nextSymbolId
  symbols_nodup : (d.symbols.map (fun s => s.id)).Nodup
  occ_lt : ∀ o ∈ d.occurrences, o.id < d.nextOccId
  edges_lt : ∀ e ∈ d.edges, e.id < d.nextEdgeId
  files_paths_nodup : (d.files.map (fun f => f.path)).Nodup
  modules_names_nodup : (d.modules.map (fun m => m.name)).Nodup
  modules_ids_nodup : (d.modules.map (fun m => m.id)).Nodup

/-- Projection keeping only path-keyed `file:` entries. -/
def filePathProj (ent : Sled.FileKey × Sled.File) : Option Sled.File :=
  match ent.1 with
  | Sled.FileKey.byPath _ => some ent.2
  | Sled.FileKey.byId _ => none

/-- Projection keeping only name-keyed `module:` entries. -/
def modNameProj (ent : Sled.ModKey × Sled.Module) : Option Sled.Module :=
  match ent.1 with
  | Sled.ModKey.byName _ => some ent.2
  | Sled.ModKey.byId _ => none

/-- The file records of the `file:` namespace, one per file (read off the
path-keyed entries). -/
def canonFiles (st : Sled.SymgraphDb) : List Sled.File :=
  st.files.filterMap filePathProj

/-- The module records of the `module:` namespace, one per module. -/
def canonModules (st : Sled.SymgraphDb) : List Sled.Module :=
  st.modules.filterMap modNameProj

/-- Well-formedness of a sled store, as established by `sled::open` on a
fresh path and preserved by every operation of the common surface: the
`file:`/`module:` namespaces hold exactly one path-keyed and one id-keyed
copy per record, stored ids are below the freshness supply and distinct,
entry keys agree with record ids, and the `edges_from:` index holds exactly
one composite entry per symbol-sourced edge. -/
structure SledWF (st : Sled.SymgraphDb) : Prop where
  files_shape : st.files = (canonFiles st).flatMap filePair
  files_lt : ∀ f ∈ canonFiles st, f.id < st.nextFileId
  files_ids_nodup : ((canonFiles st).map (fun f => f.id)).Nodup
  files_paths_nodup : ((canonFiles st).map (fun f => f.path)).Nodup
  modules_shape : st.modules = (canonModules st).flatMap modPair
  modules_lt : ∀ m ∈ canonModules st, m.id < st.nextModuleId
  modules_ids_nodup : ((canonModules st).map (fun m => m.id)).Nodup
  modules_names_nodup : ((canonModules st).map (fun m => m.name)).Nodup
  symbols_key : ∀ ent ∈ st.symbols, ent.1 = ent.2.id
  symbols_lt : ∀ ent ∈ st.symbols, ent.2.id < st.nextSymbolId
  symbols_ids_nodup : (st.symbols.map (fun ent => ent.1)).Nodup
  occ_key : ∀ ent ∈ st.occurrences, ent.1 = ent.2.id
  occ_lt : ∀ ent ∈ st.occurrences, ent.2.id < st.nextOccId
  edges_key : ∀ ent ∈ st.edges, ent.1 = ent.2.id
  edges_lt : ∀ ent ∈ st.edges, ent.2.id < st.nextEdgeId
  edges_ids_nodup : (st.edges.map (fun ent => ent.1)).Nodup
  edgesFrom_shape : st.edgesFrom = st.edges.filterMap (fun ent =>
    ent.2.from_sym.map (fun f => ((f, ent.2.kind, ent.2.id), ent.2)))

theorem assocFind_cons {κ α : Type} [DecidableEq κ] (e : κ × α) (l : List (κ × α)) (k : κ) :
    assocFind (e :: l) k = if e.1 = k then some e.2 else assocFind l k := by
  by_cases h : e.1 = k <;> simp [assocFind, List.find?_cons, h]

theorem assocFind_eq_none_iff {κ α : Type} [DecidableEq κ] {l : List (κ × α)} {k : κ} :
    assocFind l k = none ↔ ∀ ent ∈ l, ent.1 ≠ k := by
  simp [assocFind, List.find?_eq_none]

theorem assocFind_append {κ α : Type} [DecidableEq κ] (l r : List (κ × α)) (k : κ) :
    assocFind (l ++ r) k = (assocFind l k).or (assocFind r k) := by
  unfold assocFind
  rw [List.find?_append]
  cases h : l.find? (fun e => decide (e.1 = k)) <;> simp

theorem assocInsert_of_forall_ne {κ α : Type} [DecidableEq κ] {l : List (κ × α)} {k : κ}
    (v : α) (h : ∀ ent ∈ l, ent.1 ≠ k) : assocInsert l k v = l ++ [(k, v)] := by
  have hany : l.any (fun e => decide (e.1 = k)) = false := by
    simp only [List.any_eq_false, decide_eq_true_eq]
    exact h
  simp [assocInsert, hany]

theorem assocFind_map_replace {κ α : Type} [DecidableEq κ] {l : List (κ × α)} {k : κ}
    (v : α) (h : l.any (fun e => decide (e.1 = k)) = true) :
    assocFind (l.map (fun e => if e.1 = k then (k, v) else e)) k = some v := by
  induction l with
  | nil => simp at h
  | cons e t ih =>
    by_cases he : e.1 = k
    · simp [assocFind_cons, he]
    · simp only [List.any_cons, Bool.or_eq_true, decide_eq_true_eq] at h
      rcases h with h | h
      · exact absurd h he
      · simp only [List.map_cons, if_neg he, assocFind_cons, he, if_false]
        exact ih h

theorem assocFind_assocInsert_self {κ α : Type} [DecidableEq κ] (l : List (κ × α))
    (k : κ) (v : α) : assocFind (assocInsert l k v) k = some v := by
  by_cases hany : l.any (fun e => decide (e.1 = k)) = true
  · simp only [assocInsert, hany, if_true]
    exact assocFind_map_replace v hany
  · have hf : ∀ ent ∈ l, ent.1 ≠ k := by
      simp only [Bool.not_eq_true, List.any_eq_false, decide_eq_true_eq] at hany
      exact hany
    rw [assocInsert_of_forall_ne v hf, assocFind_append]
    have : assocFind l k = none := assocFind_eq_none_iff.mpr hf
    simp [this, assocFind_cons]

theorem assocFind_map_replace_ne {κ α : Type} [DecidableEq κ] {l : List (κ × α)}
    {k k' : κ} (v : α) (hne : k' ≠ k) :
    assocFind (l.map (fun e => if e.1 = k then (k, v) else e)) k' = assocFind l k' := by
  induction l with
  | nil => rfl
  | cons e t ih =>
    by_cases he : e.1 = k
    · have h1 : ¬ k = k' := fun h => hne h.symm
      have h2 : ¬ e.1 = k' := fun h => hne (he.symm.trans h).symm
      simp only [List.map_cons, if_pos he, assocFind_cons, if_neg h1, if_neg h2]
      exact ih
    · simp only [List.map_cons, if_neg he, assocFind_cons]
      by_cases h2 : e.1 = k'
      · simp [h2]
      · simp [h2, ih]

theorem assocFind_assocInsert_ne {κ α : Type} [DecidableEq κ] (l : List (κ × α))
    {k k' : κ} (v : α) (hne : k' ≠ k) :
    assocFind (assocInsert l k v) k' = assocFind l k' := by
  by_cases hany : l.any (fun e => decide (e.1 = k)) = true
  · simp only [assocInsert, hany, if_true]
    exact assocFind_map_replace_ne v hne
  · have hf : ∀ ent ∈ l, ent.1 ≠ k := by
      simp only [Bool.not_eq_true, List.any_eq_false, decide_eq_true_eq] at hany
      exact hany
    rw [assocInsert_of_forall_ne v hf, assocFind_append]
    have : assocFind [(k, v)] k' = none := by
      have hn : ¬ ((k, v) : κ × α).1 = k' := fun h => hne h.symm
      rw [assocFind_cons, if_neg hn]
      rfl
    rw [this]
    cases assocFind l k' <;> rfl

theorem assocFind_flatMap_filePair (fs : List Sled.File) (p : String) :
    assocFind (fs.flatMap filePair) (Sled.FileKey.byPath p) =
      fs.find? (fun f => decide (f.path = p)) := by
  induction fs with
  | nil => rfl
  | cons f t ih =>
    by_cases h : f.path = p
    · simp [List.flatMap_cons, filePair, assocFind_cons, List.find?_cons, h]
    · simp [List.flatMap_cons, filePair, assocFind_cons, List.find?_cons, h, ih]

theorem assocFind_flatMap_modPair (ms : List Sled.Module) (n : String) :
    assocFind (ms.flatMap modPair) (Sled.ModKey.byName n) =
      ms.find? (fun m => decide (m.name = n)) := by
  induction ms with
  | nil => rfl
  | cons m t ih =>
    by_cases h : m.name = n
    · simp [List.flatMap_cons, modPair, assocFind_cons, List.find?_cons, h]
    · simp [List.flatMap_cons, modPair, assocFind_cons, List.find?_cons, h, ih]

theorem filterMap_filePathProj_flatMap (fs : List Sled.File) :
    (fs.flatMap filePair).filterMap filePathProj = fs := by
  induction fs with
  | nil => rfl
  | cons f t ih => simp [List.flatMap_cons, filePair, filePathProj, ih]

theorem filterMap_modNameProj_flatMap (ms : List Sled.Module) :
    (ms.flatMap modPair).filterMap modNameProj = ms := by
  induction ms with
  | nil => rfl
  | cons m t ih => simp [List.flatMap_cons, modPair, modNameProj, ih]

theorem filePair_key_ne_byId {fs : List Sled.File} {n : Nat}
    (h : ∀ f ∈ fs, f.id ≠ n) :
    ∀ ent ∈ fs.flatMap filePair, ent.1 ≠ Sled.FileKey.byId n := by
  intro ent hent
  rcases List.mem_flatMap.mp hent with ⟨f, hf, hin⟩
  simp only [filePair, List.mem_cons, List.not_mem_nil, or_false] at hin
  rcases hin with rfl | rfl
  · intro hc
    cases hc
  · intro hc
    cases hc
    exact h f hf rfl

theorem filePair_key_ne_byPath {fs : List Sled.File} {p : String}
    (h : ∀ f ∈ fs, f.path ≠ p) :
    ∀ ent ∈ fs.flatMap filePair, ent.1 ≠ Sled.FileKey.byPath p := by
  intro ent hent
  rcases List.mem_flatMap.mp hent with ⟨f, hf, hin⟩
  simp only [filePair, List.mem_cons, List.not_mem_nil, or_false] at hin
  rcases hin with rfl | rfl
  · intro hc
    cases hc
    exact h f hf rfl
  · intro hc
    cases hc

theorem modPair_key_ne_byId {ms : List Sled.Module} {n : Nat}
    (h : ∀ m ∈ ms, m.id ≠ n) :
    ∀ ent ∈ ms.flatMap modPair, ent.1 ≠ Sled.ModKey.byId n := by
  intro ent hent
  rcases List.mem_flatMap.mp hent with ⟨m, hm, hin⟩
  simp only [modPair, List.mem_cons, List.not_mem_nil, or_false] at hin
  rcases hin with rfl | rfl
  · intro hc
    cases hc
  · intro hc
    cases hc
    exact h m hm rfl

theorem modPair_key_ne_byName {ms : List Sled.Module} {n : String}
    (h : ∀ m ∈ ms, m.name ≠ n) :
    ∀ ent ∈ ms.flatMap modPair, ent.1 ≠ Sled.ModKey.byName n := by
  intro ent hent
  rcases List.mem_flatMap.mp hent with ⟨m, hm, hin⟩
  simp only [modPair, List.mem_cons, List.not_mem_nil, or_false] at hin
  rcases hin with rfl | rfl
  · intro hc
    cases hc
    exact h m hm rfl
  · intro hc
    cases hc

theorem sled_ensure_file_hit {st : Sled.SymgraphDb} {p : String} {f : Sled.File}
    (h : assocFind st.files (Sled.FileKey.byPath p) = some f)
    (pid l : String) (c pu : Option String) :
    Sled.ensure_file_with_category st pid p l c pu = (f.id, st) := by
  simp [Sled.ensure_file_with_category, h]

theorem sled_ensure_file_miss {st : Sled.SymgraphDb} {p : String}
    (h : assocFind st.files (Sled.FileKey.byPath p) = none)
    (hid : ∀ ent ∈ st.files, ent.1 ≠ Sled.FileKey.byId st.nextFileId)
    (pid l : String) (c pu : Option String) :
    Sled.ensure_file_with_category st pid p l c pu =
      (st.nextFileId, { st with
        files := st.files ++ filePair ⟨st.nextFileId, pid, none, p, l, c, pu⟩
        nextFileId := st.nextFileId + 1 }) := by
  have hp := assocFind_eq_none_iff.mp h
  simp only [Sled.ensure_file_with_category, h]
  rw [assocInsert_of_forall_ne _ hp, assocInsert_of_forall_ne, List.append_assoc]
  · rfl
  · intro ent hent
    rcases List.mem_append.mp hent with hl | hr
    · exact hid ent hl
    · simp only [List.mem_singleton] at hr
      subst hr
      intro hc
      cases hc

/-- A repeated `ensure_file_with_category` on the same path returns the id
answered by the first call and leaves the store entirely unchanged,
whatever category/purpose (and project id and language) the repeat call
supplies. -/
theorem sled_ensure_file_repeat (st : Sled.SymgraphDb) (pid pid' p l l' : String)
    (c pu c' pu' : Option String) :
    Sled.ensure_file_with_category ((Sled.ensure_file_with_category st pid p l c pu).2)
        pid' p l' c' pu' =
      ((Sled.ensure_file_with_category st pid p l c pu).1,
       (Sled.ensure_file_with_category st pid p l c pu).2) := by
  cases h : assocFind st.files (Sled.FileKey.byPath p) with
  | some f =>
    rw [sled_ensure_file_hit h pid l c pu]
    exact sled_ensure_file_hit h pid' l' c' pu'
  | none =>
    simp only [Sled.ensure_file_with_category, h]
    have hfind : assocFind
        (assocInsert (assocInsert st.files (Sled.FileKey.byPath p)
          ⟨st.nextFileId, pid, none, p, l, c, pu⟩)
          (Sled.FileKey.byId st.nextFileId)
          ⟨st.nextFileId, pid, none, p, l, c, pu⟩)
        (Sled.FileKey.byPath p) = some ⟨st.nextFileId, pid, none, p, l, c, pu⟩ := by
      rw [assocFind_assocInsert_ne _ _ (by intro hc; cases hc)]
      exact assocFind_assocInsert_self _ _ _
    simp [hfind]

theorem sled_upsert_module_hit {st : Sled.SymgraphDb} {n : String} {m : Sled.Module}
    (h : assocFind st.modules (Sled.ModKey.byName n) = some m) (k p : String) :
    Sled.upsert_module st n k p = (m.id, st) := by
  simp [Sled.upsert_module, h]

theorem sled_upsert_module_miss {st : Sled.SymgraphDb} {n : String}
    (h : assocFind st.modules (Sled.ModKey.byName n) = none)
    (hid : ∀ ent ∈ st.modules, ent.1 ≠ Sled.ModKey.byId st.nextModuleId)
    (k p : String) :
    Sled.upsert_module st n k p =
      (st.nextModuleId, { st with
        modules := st.modules ++
          modPair ⟨st.nextModuleId, "1", n, k, if p = "" then none else some p⟩
        nextModuleId := st.nextModuleId + 1 }) := by
  have hn := assocFind_eq_none_iff.mp h
  simp only [Sled.upsert_module, h]
  rw [assocInsert_of_forall_ne _ hn, assocInsert_of_forall_ne, List.append_assoc]
  · rfl
  · intro ent hent
    rcases List.mem_append.mp hent with hl | hr
    · exact hid ent hl
    · simp only [List.mem_singleton] at hr
      subst hr
      intro hc
      cases hc

/-- A repeated `upsert_module` on the same name returns the id answered by
the first call and leaves the store entirely unchanged, whatever kind/path
the repeat call supplies — in particular a non-empty repeat path does not
backfill an empty stored path. -/
theorem sled_upsert_module_repeat (st : Sled.SymgraphDb) (n k p k' p' : String) :
    Sled.upsert_module ((Sled.upsert_module st n k p).2) n k' p' =
      ((Sled.upsert_module st n k p).1, (Sled.upsert_module st n k p).2) := by
  cases h : assocFind st.modules (Sled.ModKey.byName n) with
  | some m =>
    rw [sled_upsert_module_hit h k p]
    exact sled_upsert_module_hit h k' p'
  | none =>
    simp only [Sled.upsert_module, h]
    have hfind : assocFind
        (assocInsert (assocInsert st.modules (Sled.ModKey.byName n)
          ⟨st.nextModuleId, "1", n, k, if p = "" then none else some p⟩)
          (Sled.ModKey.byId st.nextModuleId)
          ⟨st.nextModuleId, "1", n, k, if p = "" then none else some p⟩)
        (Sled.ModKey.byName n) =
        some ⟨st.nextModuleId, "1", n, k, if p = "" then none else some p⟩ := by
      rw [assocFind_assocInsert_ne _ _ (by intro hc; cases hc)]
      exact assocFind_assocInsert_self _ _ _
    simp [hfind]

theorem sled_ensure_project_hit {st : Sled.SymgraphDb} {r : String} {pr : Sled.Project}
    (h : assocFind st.projects (Sled.ProjKey.byRoot r) = some pr) (n now : String) :
    Sled.ensure_project st n r now = (pr.id, st) := by
  simp [Sled.ensure_project, h]

theorem sled_ensure_project_miss {st : Sled.SymgraphDb} {r : String}
    (h : assocFind st.projects (Sled.ProjKey.byRoot r) = none) (n now : String) :
    Sled.ensure_project st n r now =
      (st.nextProjectId, { st with
        projects := assocInsert (assocInsert st.projects (Sled.ProjKey.byRoot r)
          ⟨st.nextProjectId, n, r, none, none, none, none, now⟩)
          (Sled.ProjKey.byId st.nextProjectId)
          ⟨st.nextProjectId, n, r, none, none, none, none, now⟩
        nextProjectId := st.nextProjectId + 1 }) := by
  simp [Sled.ensure_project, h]

theorem sledWF_emptyDb : SledWF Sled.emptyDb := by
  constructor <;> simp [Sled.emptyDb, canonFiles, canonModules]

theorem files_key_ne_byId {st : Sled.SymgraphDb} (h : SledWF st) :
    ∀ ent ∈ st.files, ent.1 ≠ Sled.FileKey.byId st.nextFileId := by
  rw [h.files_shape]
  exact filePair_key_ne_byId (fun f hf hc => absurd (hc ▸ h.files_lt f hf) (lt_irrefl _))

theorem modules_key_ne_byId {st : Sled.SymgraphDb} (h : SledWF st) :
    ∀ ent ∈ st.modules, ent.1 ≠ Sled.ModKey.byId st.nextModuleId := by
  rw [h.modules_shape]
  exact modPair_key_ne_byId (fun m hm hc => absurd (hc ▸ h.modules_lt m hm) (lt_irrefl _))

theorem sled_find_file_eq {st : Sled.SymgraphDb} (h : SledWF st) (p : String) :
    assocFind st.files (Sled.FileKey.byPath p) =
      (canonFiles st).find? (fun f => decide (f.path = p)) := by
  conv_lhs => rw [h.files_shape]
  exact assocFind_flatMap_filePair _ p

theorem sled_find_module_eq {st : Sled.SymgraphDb} (h : SledWF st) (n : String) :
    assocFind st.modules (Sled.ModKey.byName n) =
      (canonModules st).find? (fun m => decide (m.name = n)) := by
  conv_lhs => rw [h.modules_shape]
  exact assocFind_flatMap_modPair _ n

theorem edgesFrom_key_ne {st : Sled.SymgraphDb} (h : SledWF st) (f : Nat) (k : String) :
    ∀ ent ∈ st.edgesFrom, ent.1 ≠ (f, k, st.nextEdgeId) := by
  intro ent hent
  rw [h.edgesFrom_shape] at hent
  rcases List.mem_filterMap.mp hent with ⟨⟨i, e⟩, he, hmap⟩
  cases hfs : e.from_sym with
  | none => simp [hfs] at hmap
  | some f' =>
    simp only [hfs, Option.map_some'] at hmap
    injection hmap with hmap
    intro hc
    rw [← hmap] at hc
    have : e.id = st.nextEdgeId := congrArg (fun x => x.2.2) hc
    exact absurd (this ▸ h.edges_lt ⟨i, e⟩ he) (lt_irrefl _)

theorem sledWF_ensure_file {st : Sled.SymgraphDb} (h : SledWF st)
    (pid p l : String) (c pu : Option String) :
    SledWF (Sled.ensure_file_with_category st pid p l c pu).2 ∧
    st.nextFileId ≤ (Sled.ensure_file_with_category st pid p l c pu).2.nextFileId ∧
    (Sled.ensure_file_with_category st pid p l c pu).1 <
      (Sled.ensure_file_with_category st pid p l c pu).2.nextFileId ∧
    canonFiles (Sled.ensure_file_with_category st pid p l c pu).2 =
      canonFiles st ++
        (if p ∈ (canonFiles st).map (fun f => f.path) then []
         else [⟨st.nextFileId, pid, none, p, l, c, pu⟩]) := by
  cases hfind : assocFind st.files (Sled.FileKey.byPath p) with
  | some f =>
    rw [sled_ensure_file_hit hfind pid l c pu]
    have hmem : f ∈ canonFiles st ∧ f.path = p := by
      rw [sled_find_file_eq h] at hfind
      exact ⟨List.mem_of_find?_eq_some hfind, by simpa using List.find?_some hfind⟩
    have hp : p ∈ (canonFiles st).map (fun f => f.path) :=
      List.mem_map.mpr ⟨f, hmem.1, hmem.2⟩
    exact ⟨h, le_refl _, lt_of_lt_of_le (h.files_lt f hmem.1) (le_refl _),
      by simp [hp]⟩
  | none =>
    rw [sled_ensure_file_miss hfind (files_key_ne_byId h) pid l c pu]
    have hnp : p ∉ (canonFiles st).map (fun f => f.path) := by
      rw [sled_find_file_eq h] at hfind
      intro hc
      rcases List.mem_map.mp hc with ⟨f, hf, hfp⟩
      have := List.find?_eq_none.mp hfind f hf
      simp [hfp] at this
    have hcanon : canonFiles { st with
        files := st.files ++ filePair ⟨st.nextFileId, pid, none, p, l, c, pu⟩
        nextFileId := st.nextFileId + 1 } =
        canonFiles st ++ [⟨st.nextFileId, pid, none, p, l, c, pu⟩] := by
      show (st.files ++ filePair _).filterMap filePathProj = _
      rw [List.filterMap_append]
      rfl
    refine ⟨?_, Nat.le_succ _, Nat.lt_succ_self _, by simp [hcanon, hnp]⟩
    constructor
    · show st.files ++ filePair _ = _
      rw [hcanon, List.flatMap_append, h.files_shape]
      rfl
    · rw [hcanon]
      intro f hf
      rcases List.mem_append.mp hf with hl | hr
      · exact lt_trans (h.files_lt f hl) (Nat.lt_succ_self _)
      · simp only [List.mem_singleton] at hr
        subst hr
        exact Nat.lt_succ_self _
    · rw [hcanon, List.map_append, List.nodup_append]
      refine ⟨h.files_ids_nodup, List.nodup_singleton _, ?_⟩
      intro i hi hmem
      simp only [List.map_cons, List.map_nil, List.mem_singleton] at hmem
      subst hmem
      rcases List.mem_map.mp hi with ⟨f, hf, hfi⟩
      exact absurd (hfi ▸ h.files_lt f hf) (lt_irrefl _)
    · rw [hcanon, List.map_append, List.nodup_append]
      refine ⟨h.files_paths_nodup, List.nodup_singleton _, ?_⟩
      intro q hq hmem
      simp only [List.map_cons, List.map_nil, List.mem_singleton] at hmem
      subst hmem
      exact hnp hq
    · exact h.modules_shape
    · exact h.modules_lt
    · exact h.modules_ids_nodup
    · exact h.modules_names_nodup
    · exact h.symbols_key
    · exact h.symbols_lt
    · exact h.symbols_ids_nodup
    · exact h.occ_key
    · exact h.occ_lt
    · exact h.edges_key
    · exact h.edges_lt
    · exact h.edges_ids_nodup
    · exact h.edgesFrom_shape

theorem sledWF_upsert_module {st : Sled.SymgraphDb} (h : SledWF st) (n k p : String) :
    SledWF (Sled.upsert_module st n k p).2 ∧
    st.nextModuleId ≤ (Sled.upsert_module st n k p).2.nextModuleId ∧
    (Sled.upsert_module st n k p).1 < (Sled.upsert_module st n k p).2.nextModuleId ∧
    canonModules (Sled.upsert_module st n k p).2 =
      canonModules st ++
        (if n ∈ (canonModules st).map (fun m => m.name) then []
         else [⟨st.nextModuleId, "1", n, k, if p = "" then none else some p⟩]) ∧
    (Sled.upsert_module st n k p).2.nextFileId = st.nextFileId ∧
    canonFiles (Sled.upsert_module st n k p).2 = canonFiles st := by
  cases hfind : assocFind st.modules (Sled.ModKey.byName n) with
  | some m =>
    rw [sled_upsert_module_hit hfind k p]
    have hmem : m ∈ canonModules st ∧ m.name = n := by
      rw [sled_find_module_eq h] at hfind
      exact ⟨List.mem_of_find?_eq_some hfind, by simpa using List.find?_some hfind⟩
    have hn : n ∈ (canonModules st).map (fun m => m.name) :=
      List.mem_map.mpr ⟨m, hmem.1, hmem.2⟩
    exact ⟨h, le_refl _, h.modules_lt m hmem.1, by simp [hn], rfl, rfl⟩
  | none =>
    rw [sled_upsert_module_miss hfind (modules_key_ne_byId h) k p]
    have hnn : n ∉ (canonModules st).map (fun m => m.name) := by
      rw [sled_find_module_eq h] at hfind
      intro hc
      rcases List.mem_map.mp hc with ⟨m, hm, hmn⟩
      have := List.find?_eq_none.mp hfind m hm
      simp [hmn] at this
    have hcanon : canonModules { st with
        modules := st.modules ++
          modPair ⟨st.nextModuleId, "1", n, k, if p = "" then none else some p⟩
        nextModuleId := st.nextModuleId + 1 } =
        canonModules st ++
          [⟨st.nextModuleId, "1", n, k, if p = "" then none else some p⟩] := by
      show (st.modules ++ modPair _).filterMap modNameProj = _
      rw [List.filterMap_append]
      rfl
    refine ⟨?_, Nat.le_succ _, Nat.lt_succ_self _, by simp [hcanon, hnn], rfl, rfl⟩
    constructor
    · exact h.files_shape
    · exact h.files_lt
    · exact h.files_ids_nodup
    · exact h.files_paths_nodup
    · show st.modules ++ modPair _ = _
      rw [hcanon, List.flatMap_append, h.modules_shape]
      rfl
    · rw [hcanon]
      intro m hm
      rcases List.mem_append.mp hm with hl | hr
      · exact lt_trans (h.modules_lt m hl) (Nat.lt_succ_self _)
      · simp only [List.mem_singleton] at hr
        subst hr
        exact Nat.lt_succ_self _
    · rw [hcanon, List.map_append, List.nodup_append]
      refine ⟨h.modules_ids_nodup, List.nodup_singleton _, ?_⟩
      intro i hi hmem
      simp only [List.map_cons, List.map_nil, List.mem_singleton] at hmem
      subst hmem
      rcases List.mem_map.mp hi with ⟨m, hm, hmi⟩
      exact absurd (hmi ▸ h.modules_lt m hm) (lt_irrefl _)
    · rw [hcanon, List.map_append, List.nodup_append]
      refine ⟨h.modules_names_nodup, List.nodup_singleton _, ?_⟩
      intro q hq hmem
      simp only [List.map_cons, List.map_nil, List.mem_singleton] at hmem
      subst hmem
      exact hnn hq
    · exact h.symbols_key
    · exact h.symbols_lt
    · exact h.symbols_ids_nodup
    · exact h.occ_key
    · exact h.occ_lt
    · exact h.edges_key
    · exact h.edges_lt
    · exact h.edges_ids_nodup
    · exact h.edgesFrom_shape

theorem symbols_key_ne {st : Sled.SymgraphDb} (h : SledWF st) :
    ∀ ent ∈ st.symbols, ent.1 ≠ st.nextSymbolId := by
  intro ent hent hc
  exact absurd (((h.symbols_key ent hent).symm.trans hc) ▸ h.symbols_lt ent hent)
    (lt_irrefl _)

theorem occ_key_ne {st : Sled.SymgraphDb} (h : SledWF st) :
    ∀ ent ∈ st.occurrences, ent.1 ≠ st.nextOccId := by
  intro ent hent hc
  exact absurd (((h.occ_key ent hent).symm.trans hc) ▸ h.occ_lt ent hent) (lt_irrefl _)

theorem edges_key_ne {st : Sled.SymgraphDb} (h : SledWF st) :
    ∀ ent ∈ st.edges, ent.1 ≠ st.nextEdgeId := by
  intro ent hent hc
  exact absurd (((h.edges_key ent hent).symm.trans hc) ▸ h.edges_lt ent hent)
    (lt_irrefl _)

theorem sledWF_insert_symbol {st : Sled.SymgraphDb} (h : SledWF st) (fid : Nat)
    (usr key : Option String) (nm kd : String) (df : Bool) :
    SledWF (Sled.insert_symbol st fid usr key nm kd df).2 ∧
    (Sled.insert_symbol st fid usr key nm kd df).2.nextFileId = st.nextFileId ∧
    canonFiles (Sled.insert_symbol st fid usr key nm kd df).2 = canonFiles st := by
  have happ : assocInsert st.symbols st.nextSymbolId
      ⟨st.nextSymbolId, fid, usr, key, nm, kd, df⟩ =
      st.symbols ++ [(st.nextSymbolId, ⟨st.nextSymbolId, fid, usr, key, nm, kd, df⟩)] :=
    assocInsert_of_forall_ne _ (symbols_key_ne h)
  have hwf : ∀ st' : Sled.SymgraphDb,
      st'.files = st.files → st'.modules = st.modules →
      st'.symbols = st.symbols ++
        [(st.nextSymbolId, ⟨st.nextSymbolId, fid, usr, key, nm, kd, df⟩)] →
      st'.occurrences = st.occurrences → st'.edges = st.edges →
      st'.edgesFrom = st.edgesFrom →
      st'.nextFileId = st.nextFileId → st'.nextModuleId = st.nextModuleId →
      st'.nextSymbolId = st.nextSymbolId + 1 →
      st'.nextOccId = st.nextOccId → st'.nextEdgeId = st.nextEdgeId →
      SledWF st' := by
    intro st' hf hm hs ho he hef hnf hnm hns hno hne
    have hcf : canonFiles st' = canonFiles st := by
      show st'.files.filterMap _ = _
      rw [hf]
      rfl
    have hcm : canonModules st' = canonModules st := by
      show st'.modules.filterMap _ = _
      rw [hm]
      rfl
    constructor
    · rw [hf, hcf]
      exact h.files_shape
    · rw [hcf, hnf]
      exact h.files_lt
    · rw [hcf]
      exact h.files_ids_nodup
    · rw [hcf]
      exact h.files_paths_nodup
    · rw [hm, hcm]
      exact h.modules_shape
    · rw [hcm, hnm]
      exact h.modules_lt
    · rw [hcm]
      exact h.modules_ids_nodup
    · rw [hcm]
      exact h.modules_names_nodup
    · rw [hs]
      intro ent hent
      rcases List.mem_append.mp hent with hl | hr
      · exact h.symbols_key ent hl
      · simp only [List.mem_singleton] at hr
        subst hr
        rfl
    · rw [hs, hns]
      intro ent hent
      rcases List.mem_append.mp hent with hl | hr
      · exact lt_trans (h.symbols_lt ent hl) (Nat.lt_succ_self _)
      · simp only [List.mem_singleton] at hr
        subst hr
        exact Nat.lt_succ_self _
    · rw [hs, List.map_append, List.nodup_append]
      refine ⟨h.symbols_ids_nodup, List.nodup_singleton _, ?_⟩
      intro i hi hmem
      simp only [List.map_cons, List.map_nil, List.mem_singleton] at hmem
      subst hmem
      rcases List.mem_map.mp hi with ⟨ent, hent, hid⟩
      exact symbols_key_ne h ent hent hid
    · rw [ho]
      exact h.occ_key
    · rw [ho, hno]
      exact h.occ_lt
    · rw [he]
      exact h.edges_key
    · rw [he, hne]
      exact h.edges_lt
    · rw [he]
      exact h.edges_ids_nodup
    · rw [hef, he]
      exact h.edgesFrom_shape
  cases usr with
  | none =>
    refine ⟨hwf _ rfl rfl ?_ rfl rfl rfl rfl rfl rfl rfl rfl, rfl, ?_⟩
    · exact happ
    · rfl
  | some u =>
    refine ⟨hwf _ rfl rfl ?_ rfl rfl rfl rfl rfl rfl rfl rfl, rfl, ?_⟩
    · exact happ
    · rfl

theorem sledWF_insert_occurrence {st : Sled.SymgraphDb} (h : SledWF st)
    (sid fid : Nat) (usage : String) (line col : Nat) :
    SledWF (Sled.insert_occurrence st sid fid usage line col).2 ∧
    (Sled.insert_occurrence st sid fid usage line col).2.nextFileId = st.nextFileId ∧
    canonFiles (Sled.insert_occurrence st sid fid usage line col).2 = canonFiles st := by
  have happ : assocInsert st.occurrences st.nextOccId
      ⟨st.nextOccId, sid, fid, usage, line, col⟩ =
      st.occurrences ++ [(st.nextOccId, ⟨st.nextOccId, sid, fid, usage, line, col⟩)] :=
    assocInsert_of_forall_ne _ (occ_key_ne h)
  refine ⟨?_, rfl, rfl⟩
  constructor
  · exact h.files_shape
  · exact h.files_lt
  · exact h.files_ids_nodup
  · exact h.files_paths_nodup
  · exact h.modules_shape
  · exact h.modules_lt
  · exact h.modules_ids_nodup
  · exact h.modules_names_nodup
  · exact h.symbols_key
  · exact h.symbols_lt
  · exact h.symbols_ids_nodup
  · show ∀ ent ∈ assocInsert st.occurrences _ _, _
    rw [happ]
    intro ent hent
    rcases List.mem_append.mp hent with hl | hr
    · exact h.occ_key ent hl
    · simp only [List.mem_singleton] at hr
      subst hr
      rfl
  · show ∀ ent ∈ assocInsert st.occurrences _ _, ent.2.id < st.nextOccId + 1
    rw [happ]
    intro ent hent
    rcases List.mem_append.mp hent with hl | hr
    · exact lt_trans (h.occ_lt ent hl) (Nat.lt_succ_self _)
    · simp only [List.mem_singleton] at hr
      subst hr
      exact Nat.lt_succ_self _
  · exact h.edges_key
  · exact h.edges_lt
  · exact h.edges_ids_nodup
  · exact h.edgesFrom_shape

theorem sledWF_insert_edge {st : Sled.SymgraphDb} (h : SledWF st)
    (fs ts fm tm : Option Nat) (k : String) :
    SledWF (Sled.insert_edge st fs ts fm tm k).2 ∧
    (Sled.insert_edge st fs ts fm tm k).2.nextFileId = st.nextFileId ∧
    canonFiles (Sled.insert_edge st fs ts fm tm k).2 = canonFiles st := by
  have happ : assocInsert st.edges st.nextEdgeId ⟨st.nextEdgeId, fs, ts, fm, tm, k⟩ =
      st.edges ++ [(st.nextEdgeId, ⟨st.nextEdgeId, fs, ts, fm, tm, k⟩)] :=
    assocInsert_of_forall_ne _ (edges_key_ne h)
  have hwf : ∀ st' : Sled.SymgraphDb,
      st'.files = st.files → st'.modules = st.modules →
      st'.symbols = st.symbols → st'.occurrences = st.occurrences →
      st'.edges = st.edges ++ [(st.nextEdgeId, ⟨st.nextEdgeId, fs, ts, fm, tm, k⟩)] →
      st'.edgesFrom = st.edgesFrom ++
        ((⟨st.nextEdgeId, fs, ts, fm, tm, k⟩ : Edge).from_sym.map
          (fun f => ((f, k, st.nextEdgeId), (⟨st.nextEdgeId, fs, ts, fm, tm, k⟩ : Edge)))).toList →
      st'.nextFileId = st.nextFileId → st'.nextModuleId = st.nextModuleId →
      st'.nextSymbolId = st.nextSymbolId →
      st'.nextOccId = st.nextOccId → st'.nextEdgeId = st.nextEdgeId + 1 →
      SledWF st' := by
    intro st' hf hm hs ho he hef hnf hnm hns hno hne
    have hcf : canonFiles st' = canonFiles st := by
      show st'.files.filterMap _ = _
      rw [hf]
      rfl
    have hcm : canonModules st' = canonModules st := by
      show st'.modules.filterMap _ = _
      rw [hm]
      rfl
    constructor
    · rw [hf, hcf]
      exact h.files_shape
    · rw [hcf, hnf]
      exact h.files_lt
    · rw [hcf]
      exact h.files_ids_nodup
    · rw [hcf]
      exact h.files_paths_nodup
    · rw [hm, hcm]
      exact h.modules_shape
    · rw [hcm, hnm]
      exact h.modules_lt
    · rw [hcm]
      exact h.modules_ids_nodup
    · rw [hcm]
      exact h.modules_names_nodup
    · rw [hs]
      exact h.symbols_key
    · rw [hs, hns]
      exact h.symbols_lt
    · rw [hs]
      exact h.symbols_ids_nodup
    · rw [ho]
      exact h.occ_key
    · rw [ho, hno]
      exact h.occ_lt
    · rw [he]
      intro ent hent
      rcases List.mem_append.mp hent with hl | hr
      · exact h.edges_key ent hl
      · simp only [List.mem_singleton] at hr
        subst hr
        rfl
    · rw [he, hne]
      intro ent hent
      rcases List.mem_append.mp hent with hl | hr
      · exact lt_trans (h.edges_lt ent hl) (Nat.lt_succ_self _)
      · simp only [List.mem_singleton] at hr
        subst hr
        exact Nat.lt_succ_self _
    · rw [he, List.map_append, List.nodup_append]
      refine ⟨h.edges_ids_nodup, List.nodup_singleton _, ?_⟩
      intro i hi hmem
      simp only [List.map_cons, List.map_nil, List.mem_singleton] at hmem
      subst hmem
      rcases List.mem_map.mp hi with ⟨ent, hent, hid⟩
      exact edges_key_ne h ent hent hid
    · rw [hef, he, List.filterMap_append, h.edgesFrom_shape]
      cases fs <;> rfl
  cases fs with
  | none =>
    refine ⟨hwf _ rfl rfl rfl rfl ?_ ?_ rfl rfl rfl rfl rfl, rfl, ?_⟩
    · show assocInsert st.edges _ _ = _
      exact happ
    · show st.edgesFrom = _
      simp
    · rfl
  | some f =>
    refine ⟨hwf _ rfl rfl rfl rfl ?_ ?_ rfl rfl rfl rfl rfl, rfl, ?_⟩
    · show assocInsert st.edges _ _ = _
      exact happ
    · show assocInsert st.edgesFrom (f, k, st.nextEdgeId) _ = _
      rw [assocInsert_of_forall_ne _ (edgesFrom_key_ne h f k)]
      rfl
    · rfl

theorem ensAnswers_cons (op : Op) (a : Ans) (ops : List Op) (log : List Ans) :
    ensAnswers (op :: ops) (a :: log) =
      (match op, a with
       | Op.ensureFile _ _, Ans.idA n => [n]
       | _, _ => []) ++ ensAnswers ops log := by
  cases op <;> cases a <;> rfl

/-- Every state reached by running a call sequence on a fresh sled store is
well-formed; the file-id supply only grows; every id answered to an
`ensure_file` call stays below the final supply; and the set of stored file
paths is exactly the starting set plus the ensured paths. -/
theorem sled_run_wf (ops : List Op) (st : Sled.SymgraphDb) (h : SledWF st) :
    SledWF (runSledFrom st ops).1 ∧
    st.nextFileId ≤ (runSledFrom st ops).1.nextFileId ∧
    (∀ n ∈ ensAnswers ops (runSledFrom st ops).2, n < (runSledFrom st ops).1.nextFileId) ∧
    (∀ q, q ∈ (canonFiles (runSledFrom st ops).1).map (fun f => f.path) ↔
      (q ∈ (canonFiles st).map (fun f => f.path) ∨ q ∈ ensPaths ops)) := by
  induction ops generalizing st with
  | nil =>
    refine ⟨h, le_refl _, ?_, ?_⟩
    · intro n hn
      simp [ensAnswers] at hn
    · intro q
      show q ∈ (canonFiles st).map (fun f => f.path) ↔ _
      simp [ensPaths]
  | cons op rest ih =>
    cases op with
    | ensureFile p l =>
      obtain ⟨hwf', hmono, hlt, hcanon⟩ := sledWF_ensure_file h "1" p l none none
      obtain ⟨Hwf, Hmono, Hans, Hpaths⟩ :=
        ih (Sled.ensure_file_with_category st "1" p l none none).2 hwf'
      simp only [runSledFrom, stepSled, Sled.ensure_file]
      refine ⟨Hwf, le_trans hmono Hmono, ?_, ?_⟩
      · intro n hn
        rw [ensAnswers_cons] at hn
        rcases List.mem_append.mp hn with hl | hr
        · simp only [List.mem_singleton] at hl
          subst hl
          exact lt_of_lt_of_le hlt Hmono
        · exact Hans n hr
      · intro q
        rw [Hpaths q]
        have hqp : q ∈ (canonFiles (Sled.ensure_file_with_category st "1" p l
            none none).2).map (fun f => f.path) ↔
            (q ∈ (canonFiles st).map (fun f => f.path) ∨ q = p) := by
          rw [hcanon, List.map_append, List.mem_append]
          by_cases hp : p ∈ (canonFiles st).map (fun f => f.path)
          · have hq2 : q = p → q ∈ (canonFiles st).map (fun f => f.path) :=
              fun he => he ▸ hp
            simp only [hp, if_true]
            constructor
            · intro hx
              rcases hx with hx | hx
              · exact Or.inl hx
              · simp at hx
            · intro hx
              rcases hx with hx | hx
              · exact Or.inl hx
              · exact Or.inl (hq2 hx)
          · simp only [hp, if_false]
            simp [List.mem_singleton]
        rw [hqp]
        have hep : ensPaths (Op.ensureFile p l :: rest) = p :: ensPaths rest := rfl
        rw [hep]
        simp only [List.mem_cons]
        tauto
    | upsertModule n k p =>
      obtain ⟨hwf', _, _, _, hnf, hcf⟩ := sledWF_upsert_module h n k p
      obtain ⟨Hwf, Hmono, Hans, Hpaths⟩ := ih (Sled.upsert_module st n k p).2 hwf'
      simp only [runSledFrom, stepSled]
      refine ⟨Hwf, ?_, ?_, ?_⟩
      · rw [← hnf]
        exact Hmono
      · intro m hm
        rw [ensAnswers_cons] at hm
        exact Hans m hm
      · intro q
        rw [Hpaths q, hcf]
        rfl
    | insertSymbol fid usr key nm kd df =>
      obtain ⟨hwf', hnf, hcf⟩ := sledWF_insert_symbol h fid usr key nm kd df
      obtain ⟨Hwf, Hmono, Hans, Hpaths⟩ :=
        ih (Sled.insert_symbol st fid usr key nm kd df).2 hwf'
      simp only [runSledFrom, stepSled]
      refine ⟨Hwf, ?_, ?_, ?_⟩
      · rw [← hnf]
        exact Hmono
      · intro m hm
        rw [ensAnswers_cons] at hm
        exact Hans m hm
      · intro q
        rw [Hpaths q, hcf]
        rfl
    | insertOccurrence sid fid usage line col =>
      obtain ⟨hwf', hnf, hcf⟩ := sledWF_insert_occurrence h sid fid usage line col
      obtain ⟨Hwf, Hmono, Hans, Hpaths⟩ :=
        ih (Sled.insert_occurrence st sid fid usage line col).2 hwf'
      simp only [runSledFrom, stepSled]
      refine ⟨Hwf, ?_, ?_, ?_⟩
      · rw [← hnf]
        exact Hmono
      · intro m hm
        rw [ensAnswers_cons] at hm
        exact Hans m hm
      · intro q
        rw [Hpaths q, hcf]
        rfl
    | insertEdge fs ts fm tm k =>
      obtain ⟨hwf', hnf, hcf⟩ := sledWF_insert_edge h fs ts fm tm k
      obtain ⟨Hwf, Hmono, Hans, Hpaths⟩ := ih (Sled.insert_edge st fs ts fm tm k).2 hwf'
      simp only [runSledFrom, stepSled]
      refine ⟨Hwf, ?_, ?_, ?_⟩
      · rw [← hnf]
        exact Hmono
      · intro m hm
        rw [ensAnswers_cons] at hm
        exact Hans m hm
      · intro q
        rw [Hpaths q, hcf]
        rfl
    | findSymbol u =>
      obtain ⟨Hwf, Hmono, Hans, Hpaths⟩ := ih st h
      simp only [runSledFrom, stepSled]
      refine ⟨Hwf, Hmono, ?_, ?_⟩
      · intro m hm
        rw [ensAnswers_cons] at hm
        exact Hans m hm
      · intro q
        exact Hpaths q
    | queryEdges k u =>
      obtain ⟨Hwf, Hmono, Hans, Hpaths⟩ := ih st h
      simp only [runSledFrom, stepSled]
      refine ⟨Hwf, Hmono, ?_, ?_⟩
      · intro m hm
        rw [ensAnswers_cons] at hm
        exact Hans m hm
      · intro q
        exact Hpaths q

theorem sqlWF_emptyDb : SqlWF Sqlite.emptyDb := by
  constructor <;> simp [Sqlite.emptyDb]

theorem sqlWF_ensure_file {d : Sqlite.Db} (h : SqlWF d) (p l : String) :
    SqlWF (Sqlite.ensure_file d p l).2 ∧
    d.nextFileId ≤ (Sqlite.ensure_file d p l).2.nextFileId ∧
    (Sqlite.ensure_file d p l).1 < (Sqlite.ensure_file d p l).2.nextFileId ∧
    (Sqlite.ensure_file d p l).2.files = d.files ++
      (if p ∈ d.files.map (fun f => f.path) then [] else [⟨d.nextFileId, p, l⟩]) ∧
    symUsrs (Sqlite.ensure_file d p l).2 = symUsrs d := by
  cases hf : d.files.find? (fun f => decide (f.path = p)) with
  | some f =>
    have hmem : f ∈ d.files := List.mem_of_find?_eq_some hf
    have hfp : f.path = p := by simpa using List.find?_some hf
    have hp : p ∈ d.files.map (fun f => f.path) := List.mem_map.mpr ⟨f, hmem, hfp⟩
    simp only [Sqlite.ensure_file, hf]
    exact ⟨h, le_refl _, h.files_lt f hmem, by simp [hp], by trivial⟩
  | none =>
    have hp : p ∉ d.files.map (fun f => f.path) := by
      intro hc
      rcases List.mem_map.mp hc with ⟨f, hfm, hfp⟩
      have := List.find?_eq_none.mp hf f hfm
      simp [hfp] at this
    simp only [Sqlite.ensure_file, hf]
    refine ⟨?_, Nat.le_succ _, Nat.lt_succ_self _, by simp [hp], rfl⟩
    constructor
    · intro f hfm
      rcases List.mem_append.mp hfm with hl | hr
      · exact lt_trans (h.files_lt f hl) (Nat.lt_succ_self _)
      · simp only [List.mem_singleton] at hr
        subst hr
        exact Nat.lt_succ_self _
    · exact h.modules_lt
    · exact h.symbols_lt
    · exact h.symbols_nodup
    · exact h.occ_lt
    · exact h.edges_lt
    · rw [List.map_append, List.nodup_append]
      refine ⟨h.files_paths_nodup, List.nodup_singleton _, ?_⟩
      intro q hq hmem
      simp only [List.map_cons, List.map_nil, List.mem_singleton] at hmem
      subst hmem
      exact hp hq
    · exact h.modules_names_nodup
    · exact h.modules_ids_nodup

theorem sqlWF_upsert_module {d : Sqlite.Db} (h : SqlWF d) (n k p : String) :
    SqlWF (Sqlite.upsert_module d n k p).2 ∧
    (Sqlite.upsert_module d n k p).2.nextFileId = d.nextFileId ∧
    (Sqlite.upsert_module d n k p).2.files = d.files ∧
    symUsrs (Sqlite.upsert_module d n k p).2 = symUsrs d := by
  cases hf : d.modules.find? (fun m => decide (m.name = n)) with
  | some m =>
    simp only [Sqlite.upsert_module, hf]
    exact ⟨h, by trivial, by trivial, by trivial⟩
  | none =>
    have hn : ∀ m ∈ d.modules, m.name ≠ n := by
      intro m hm hc
      have := List.find?_eq_none.mp hf m hm
      simp [hc] at this
    simp only [Sqlite.upsert_module, hf]
    refine ⟨?_, by trivial, by trivial, by trivial⟩
    constructor
    · exact h.files_lt
    · intro m hm
      rcases List.mem_append.mp hm with hl | hr
      · exact lt_trans (h.modules_lt m hl) (Nat.lt_succ_self _)
      · simp only [List.mem_singleton] at hr
        subst hr
        exact Nat.lt_succ_self _
    · exact h.symbols_lt
    · exact h.symbols_nodup
    · exact h.occ_lt
    · exact h.edges_lt
    · exact h.files_paths_nodup
    · rw [List.map_append, List.nodup_append]
      refine ⟨h.modules_names_nodup, List.nodup_singleton _, ?_⟩
      intro q hq hmem
      simp only [List.map_cons, List.map_nil, List.mem_singleton] at hmem
      subst hmem
      rcases List.mem_map.mp hq with ⟨m, hm, hmn⟩
      exact hn m hm hmn
    · rw [List.map_append, List.nodup_append]
      refine ⟨h.modules_ids_nodup, List.nodup_singleton _, ?_⟩
      intro i hi hmem
      simp only [List.map_cons, List.map_nil, List.mem_singleton] at hmem
      subst hmem
      rcases List.mem_map.mp hi with ⟨m, hm, hmi⟩
      exact absurd (hmi ▸ h.modules_lt m hm) (lt_irrefl _)

theorem sqlWF_insert_symbol {d : Sqlite.Db} (h : SqlWF d) (fid : Nat)
    (usr key : Option String) (nm kd : String) (df : Bool) :
    SqlWF (Sqlite.insert_symbol d fid usr key nm kd df).2 ∧
    (Sqlite.insert_symbol d fid usr key nm kd df).2.nextFileId = d.nextFileId ∧
    (Sqlite.insert_symbol d fid usr key nm kd df).2.files = d.files ∧
    symUsrs (Sqlite.insert_symbol d fid usr key nm kd df).2 = symUsrs d ++ usr.toList := by
  refine ⟨?_, rfl, rfl, ?_⟩
  · constructor
    · exact h.files_lt
    · exact h.modules_lt
    · intro s hs
      rcases List.mem_append.mp hs with hl | hr
      · exact lt_trans (h.symbols_lt s hl) (Nat.lt_succ_self _)
      · simp only [List.mem_singleton] at hr
        subst hr
        exact Nat.lt_succ_self _
    · show (List.map (fun s => s.id)
          (d.symbols ++ [⟨d.nextSymbolId, fid, usr, key, nm, kd, df⟩])).Nodup
      rw [List.map_append, List.nodup_append]
      refine ⟨h.symbols_nodup, List.nodup_singleton _, ?_⟩
      intro i hi hmem
      simp only [List.map_cons, List.map_nil, List.mem_singleton] at hmem
      subst hmem
      rcases List.mem_map.mp hi with ⟨s, hs, hsi⟩
      exact absurd (hsi ▸ h.symbols_lt s hs) (lt_irrefl _)
    · exact h.occ_lt
    · exact h.edges_lt
    · exact h.files_paths_nodup
    · exact h.modules_names_nodup
    · exact h.modules_ids_nodup
  · show (d.symbols ++ [_]).filterMap _ = _
    rw [List.filterMap_append]
    cases usr <;> rfl

theorem sqlWF_insert_occurrence {d : Sqlite.Db} (h : SqlWF d) (sid fid : Nat)
    (usage : String) (line col : Nat) :
    SqlWF (Sqlite.insert_occurrence d sid fid usage line col).2 ∧
    (Sqlite.insert_occurrence d sid fid usage line col).2.nextFileId = d.nextFileId ∧
    (Sqlite.insert_occurrence d sid fid usage line col).2.files = d.files ∧
    symUsrs (Sqlite.insert_occurrence d sid fid usage line col).2 = symUsrs d := by
  refine ⟨?_, rfl, rfl, rfl⟩
  constructor
  · exact h.files_lt
  · exact h.modules_lt
  · exact h.symbols_lt
  · exact h.symbols_nodup
  · intro o ho
    rcases List.mem_append.mp ho with hl | hr
    · exact lt_trans (h.occ_lt o hl) (Nat.lt_succ_self _)
    · simp only [List.mem_singleton] at hr
      subst hr
      exact Nat.lt_succ_self _
  · exact h.edges_lt
  · exact h.files_paths_nodup
  · exact h.modules_names_nodup
  · exact h.modules_ids_nodup

theorem sqlWF_insert_edge {d : Sqlite.Db} (h : SqlWF d)
    (fs ts fm tm : Option Nat) (k : String) :
    SqlWF (Sqlite.insert_edge d fs ts fm tm k).2 ∧
    (Sqlite.insert_edge d fs ts fm tm k).2.nextFileId = d.nextFileId ∧
    (Sqlite.insert_edge d fs ts fm tm k).2.files = d.files ∧
    symUsrs (Sqlite.insert_edge d fs ts fm tm k).2 = symUsrs d := by
  refine ⟨?_, rfl, rfl, rfl⟩
  constructor
  · exact h.files_lt
  · exact h.modules_lt
  · exact h.symbols_lt
  · exact h.symbols_nodup
  · exact h.occ_lt
  · intro e he
    rcases List.mem_append.mp he with hl | hr
    · exact lt_trans (h.edges_lt e hl) (Nat.lt_succ_self _)
    · simp only [List.mem_singleton] at hr
      subst hr
      exact Nat.lt_succ_self _
  · exact h.files_paths_nodup
  · exact h.modules_names_nodup
  · exact h.modules_ids_nodup

/-- SQLite analog of the sled run lemma: well-formedness is preserved, the
`files` rowid supply only grows, ensured-file answers stay below it, the
stored paths are the starting ones plus the ensured ones, and the usr
column history is the starting one plus the usrs supplied by the run. -/
theorem sql_run_wf (ops : List Op) (d : Sqlite.Db) (h : SqlWF d) :
    SqlWF (runSqlFrom d ops).1 ∧
    d.nextFileId ≤ (runSqlFrom d ops).1.nextFileId ∧
    (∀ n ∈ ensAnswers ops (runSqlFrom d ops).2, n < (runSqlFrom d ops).1.nextFileId) ∧
    (∀ q, q ∈ (runSqlFrom d ops).1.files.map (fun f => f.path) ↔
      (q ∈ d.files.map (fun f => f.path) ∨ q ∈ ensPaths ops)) ∧
    symUsrs (runSqlFrom d ops).1 = symUsrs d ++ opUsrs ops := by
  induction ops generalizing d with
  | nil =>
    refine ⟨h, le_refl _, ?_, ?_, by simp [opUsrs, runSqlFrom]⟩
    · intro n hn
      simp [ensAnswers] at hn
    · intro q
      show q ∈ d.files.map (fun f => f.path) ↔ _
      simp [ensPaths]
  | cons op rest ih =>
    cases op with
    | ensureFile p l =>
      obtain ⟨hwf', hmono, hlt, hfiles, husr⟩ := sqlWF_ensure_file h p l
      obtain ⟨Hwf, Hmono, Hans, Hpaths, Husr⟩ := ih (Sqlite.ensure_file d p l).2 hwf'
      simp only [runSqlFrom, stepSql]
      refine ⟨Hwf, le_trans hmono Hmono, ?_, ?_, ?_⟩
      · intro n hn
        rw [ensAnswers_cons] at hn
        rcases List.mem_append.mp hn with hl | hr
        · simp only [List.mem_singleton] at hl
          subst hl
          exact lt_of_lt_of_le hlt Hmono
        · exact Hans n hr
      · intro q
        rw [Hpaths q]
        have hqp : q ∈ (Sqlite.ensure_file d p l).2.files.map (fun f => f.path) ↔
            (q ∈ d.files.map (fun f => f.path) ∨ q = p) := by
          rw [hfiles, List.map_append, List.mem_append]
          by_cases hp : p ∈ d.files.map (fun f => f.path)
          · have hq2 : q = p → q ∈ d.files.map (fun f => f.path) := fun he => he ▸ hp
            simp only [hp, if_true]
            constructor
            · intro hx
              rcases hx with hx | hx
              · exact Or.inl hx
              · simp at hx
            · intro hx
              rcases hx with hx | hx
              · exact Or.inl hx
              · exact Or.inl (hq2 hx)
          · simp only [hp, if_false]
            simp [List.mem_singleton]
        rw [hqp]
        have hep : ensPaths (Op.ensureFile p l :: rest) = p :: ensPaths rest := rfl
        rw [hep]
        simp only [List.mem_cons]
        tauto
      · rw [Husr, husr]
        rfl
    | upsertModule n k p =>
      obtain ⟨hwf', hnf, hfiles, husr⟩ := sqlWF_upsert_module h n k p
      obtain ⟨Hwf, Hmono, Hans, Hpaths, Husr⟩ := ih (Sqlite.upsert_module d n k p).2 hwf'
      simp only [runSqlFrom, stepSql]
      refine ⟨Hwf, by rw [← hnf]; exact Hmono, ?_, ?_, ?_⟩
      · intro m hm
        rw [ensAnswers_cons] at hm
        exact Hans m hm
      · intro q
        rw [Hpaths q, hfiles]
        rfl
      · rw [Husr, husr]
        rfl
    | insertSymbol fid usr key nm kd df =>
      obtain ⟨hwf', hnf, hfiles, husr⟩ := sqlWF_insert_symbol h fid usr key nm kd df
      obtain ⟨Hwf, Hmono, Hans, Hpaths, Husr⟩ :=
        ih (Sqlite.insert_symbol d fid usr key nm kd df).2 hwf'
      simp only [runSqlFrom, stepSql]
      refine ⟨Hwf, by rw [← hnf]; exact Hmono, ?_, ?_, ?_⟩
      · intro m hm
        rw [ensAnswers_cons] at hm
        exact Hans m hm
      · intro q
        rw [Hpaths q, hfiles]
        rfl
      · rw [Husr, husr]
        have : opUsrs (Op.insertSymbol fid usr key nm kd df :: rest) =
            usr.toList ++ opUsrs rest := by
          cases usr <;> rfl
        rw [this, List.append_assoc]
    | insertOccurrence sid fid usage line col =>
      obtain ⟨hwf', hnf, hfiles, husr⟩ := sqlWF_insert_occurrence h sid fid usage line col
      obtain ⟨Hwf, Hmono, Hans, Hpaths, Husr⟩ :=
        ih (Sqlite.insert_occurrence d sid fid usage line col).2 hwf'
      simp only [runSqlFrom, stepSql]
      refine ⟨Hwf, by rw [← hnf]; exact Hmono, ?_, ?_, ?_⟩
      · intro m hm
        rw [ensAnswers_cons] at hm
        exact Hans m hm
      · intro q
        rw [Hpaths q, hfiles]
        rfl
      · rw [Husr, husr]
        rfl
    | insertEdge fs ts fm tm k =>
      obtain ⟨hwf', hnf, hfiles, husr⟩ := sqlWF_insert_edge h fs ts fm tm k
      obtain ⟨Hwf, Hmono, Hans, Hpaths, Husr⟩ := ih (Sqlite.insert_edge d fs ts fm tm k).2 hwf'
      simp only [runSqlFrom, stepSql]
      refine ⟨Hwf, by rw [← hnf]; exact Hmono, ?_, ?_, ?_⟩
      · intro m hm
        rw [ensAnswers_cons] at hm
        exact Hans m hm
      · intro q
        rw [Hpaths q, hfiles]
        rfl
      · rw [Husr, husr]
        rfl
    | findSymbol u =>
      obtain ⟨Hwf, Hmono, Hans, Hpaths, Husr⟩ := ih d h
      simp only [runSqlFrom, stepSql]
      refine ⟨Hwf, Hmono, ?_, ?_, ?_⟩
      · intro m hm
        rw [ensAnswers_cons] at hm
        exact Hans m hm
      · intro q
        exact Hpaths q
      · exact Husr
    | queryEdges k u =>
      obtain ⟨Hwf, Hmono, Hans, Hpaths, Husr⟩ := ih d h
      simp only [runSqlFrom, stepSql]
      refine ⟨Hwf, Hmono, ?_, ?_, ?_⟩
      · intro m hm
        rw [ensAnswers_cons] at hm
        exact Hans m hm
      · intro q
        exact Hpaths q
      · exact Husr

theorem uniq_by_id {l : List Symbol} (h : (l.map (fun s => s.id)).Nodup) :
    ∀ s1 ∈ l, ∀ s2 ∈ l, s1.id = s2.id → s1 = s2 := by
  induction l with
  | nil =>
    intro s1 h1
    cases h1
  | cons s t ih =>
    intro s1 h1 s2 h2 hid
    rcases List.mem_cons.mp h1 with rfl | h1t
    · rcases List.mem_cons.mp h2 with rfl | h2t
      · rfl
      · exfalso
        rw [List.map_cons] at h
        exact (List.nodup_cons.mp h).1
          (List.mem_map.mpr ⟨s2, h2t, hid.symm⟩)
    · rcases List.mem_cons.mp h2 with rfl | h2t
      · exfalso
        rw [List.map_cons] at h
        exact (List.nodup_cons.mp h).1
          (List.mem_map.mpr ⟨s1, h1t, hid⟩)
      · exact ih (by rw [List.map_cons] at h; exact (List.nodup_cons.mp h).2)
          s1 h1t s2 h2t hid

theorem uniq_by_usr {l : List Symbol} (h : (l.filterMap (fun s => s.usr)).Nodup)
    {u : String} :
    ∀ s1 ∈ l, ∀ s2 ∈ l, s1.usr = some u → s2.usr = some u → s1 = s2 := by
  induction l with
  | nil =>
    intro s1 h1
    cases h1
  | cons s t ih =>
    intro s1 h1 s2 h2 hu1 hu2
    have hmemu : ∀ s' ∈ t, s'.usr = some u → u ∈ t.filterMap (fun s => s.usr) := by
      intro s' hs' hu'
      exact List.mem_filterMap.mpr ⟨s', hs', hu'⟩
    rcases List.mem_cons.mp h1 with rfl | h1t
    · rcases List.mem_cons.mp h2 with rfl | h2t
      · rfl
      · exfalso
        simp only [List.filterMap_cons, hu1] at h
        exact (List.nodup_cons.mp h).1 (hmemu s2 h2t hu2)
    · rcases List.mem_cons.mp h2 with rfl | h2t
      · exfalso
        simp only [List.filterMap_cons, hu2] at h
        exact (List.nodup_cons.mp h).1 (hmemu s1 h1t hu1)
      · apply ih ?_ s1 h1t s2 h2t hu1 hu2
        cases hsu : s.usr with
        | none =>
          simp only [List.filterMap_cons, hsu] at h
          exact h
        | some w =>
          simp only [List.filterMap_cons, hsu] at h
          exact (List.nodup_cons.mp h).2

theorem assocFind_symbolsOf (l : List Symbol) (j : Nat) :
    assocFind (l.map (fun s => (s.id, s))) j = l.find? (fun s => decide (s.id = j)) := by
  induction l with
  | nil => rfl
  | cons s t ih =>
    by_cases h : s.id = j
    · simp [assocFind_cons, List.find?_cons, h]
    · simp [assocFind_cons, List.find?_cons, h, ih]

theorem assocFind_usrIndexOf (l : List Symbol) (u : String) :
    assocFind (l.filterMap (fun s => s.usr.map (fun w => (w, s.id)))) u =
      (l.find? (fun s => decide (s.usr = some u))).map (fun s => s.id) := by
  induction l with
  | nil => rfl
  | cons s t ih =>
    cases hu : s.usr with
    | none => simp [List.filterMap_cons, hu, List.find?_cons, ih]
    | some w =>
      by_cases h : w = u
      · subst h
        simp [List.filterMap_cons, hu, List.find?_cons, assocFind_cons]
      · have hne : ¬ s.usr = some u := by
          rw [hu]
          intro hc
          exact h (by injection hc)
        simp [List.filterMap_cons, hu, List.find?_cons, assocFind_cons, h, hne, ih]

/-- The usr lookup of the two realizations agrees on the abstraction:
both resolve to the first `symbols` row carrying the usr (on stores where
no usr was ever indexed twice, the first row is also the last-indexed
one). -/
theorem sled_find_symbol_sim (d : Sqlite.Db) (u : String) :
    Sled.find_symbol_by_usr (reprSled d) u = Sqlite.find_symbol_by_usr d u := by
  show assocFind (d.symbols.filterMap _) u = _
  exact assocFind_usrIndexOf d.symbols u

theorem filter_cons_pos_x {α : Type} (p : α → Bool) (a : α) (l : List α)
    (h : p a = true) : (a :: l).filter p = a :: l.filter p :=
  List.filter_cons_of_pos h

theorem filter_cons_neg_x {α : Type} (p : α → Bool) (a : α) (l : List α)
    (h : ¬ p a = true) : (a :: l).filter p = l.filter p :=
  List.filter_cons_of_neg h

/-- The sled prefix scan over the composite index, followed by the target
lookup, enumerates exactly the rows of the SQLite two-way join, provided
the symbol rowids are unique (primary key) and no usr occurs on two rows. -/
theorem query_join_aux (syms : List Symbol) (E : List Edge) (k u : String) (sid : Nat)
    (s₀ : Symbol) (hs₀mem : s₀ ∈ syms) (hs₀usr : s₀.usr = some u) (hs₀id : s₀.id = sid)
    (hids : (syms.map (fun s => s.id)).Nodup)
    (husr : (syms.filterMap (fun s => s.usr)).Nodup) :
    ((E.filterMap (fun e => e.from_sym.map (fun f => ((f, e.kind, e.id), e)))).filter
        (fun ent => decide (ent.1.1 = sid) && decide (ent.1.2.1 = k))).filterMap
      (fun ent => match ent.2.to_sym with
        | none => none
        | some j => (syms.find? (fun s => decide (s.id = j))).map (fun s => s.name)) =
    E.filterMap (fun e =>
      if e.kind = k then
        match e.from_sym with
        | none => none
        | some i =>
          match syms.find? (fun s => decide (s.id = i)) with
          | none => none
          | some s1 =>
            if s1.usr = some u then
              match e.to_sym with
              | none => none
              | some j => (syms.find? (fun s => decide (s.id = j))).map (fun s => s.name)
            else none
      else none) := by
  induction E with
  | nil => rfl
  | cons e E ihE =>
    cases hfs : e.from_sym with
    | none =>
      simp only [List.filterMap_cons, hfs, Option.map_none', ite_self]
      exact ihE
    | some i =>
      have hidx : (e :: E).filterMap
          (fun e => e.from_sym.map (fun f => ((f, e.kind, e.id), e))) =
          ((i, e.kind, e.id), e) :: E.filterMap
            (fun e => e.from_sym.map (fun f => ((f, e.kind, e.id), e))) := by
        simp only [List.filterMap_cons, hfs, Option.map_some']
      by_cases hk : e.kind = k
      · by_cases hi : i = sid
        · have hfound : syms.find? (fun s => decide (s.id = i)) = some s₀ := by
            cases hs1 : syms.find? (fun s => decide (s.id = i)) with
            | none =>
              exfalso
              have := List.find?_eq_none.mp hs1 s₀ hs₀mem
              simp [hs₀id, hi] at this
            | some s1 =>
              have h1 : s1.id = i := by simpa using List.find?_some hs1
              have h2 : s1 = s₀ := uniq_by_id hids s1 (List.mem_of_find?_eq_some hs1)
                s₀ hs₀mem (by rw [h1, hs₀id, hi])
              rw [h2]
          have hcond : (fun ent : (Nat × String × Nat) × Edge =>
              decide (ent.1.1 = sid) && decide (ent.1.2.1 = k))
              ((i, e.kind, e.id), e) = true := by
            simp [hi, hk]
          rw [hidx, filter_cons_pos_x
            (fun ent => decide (ent.1.1 = sid) && decide (ent.1.2.1 = k))
            ((i, e.kind, e.id), e) _ hcond]
          simp only [List.filterMap_cons, hfs, hfound, if_pos hk, if_pos hs₀usr]
          rw [ihE]
        · have hcond : ¬ ((fun ent : (Nat × String × Nat) × Edge =>
              decide (ent.1.1 = sid) && decide (ent.1.2.1 = k))
              ((i, e.kind, e.id), e) = true) := by
            simp [hi]
          have hhead : ∀ s1, syms.find? (fun s => decide (s.id = i)) = some s1 →
              ¬ s1.usr = some u := by
            intro s1 hs1 hc
            have h1 : s1.id = i := by simpa using List.find?_some hs1
            have h2 : s1 = s₀ :=
              uniq_by_usr husr s1 (List.mem_of_find?_eq_some hs1) s₀ hs₀mem hc hs₀usr
            exact hi (by rw [← h1, h2, hs₀id])
          rw [hidx, filter_cons_neg_x
            (fun ent => decide (ent.1.1 = sid) && decide (ent.1.2.1 = k))
            ((i, e.kind, e.id), e) _ hcond]
          cases hs1 : syms.find? (fun s => decide (s.id = i)) with
          | none =>
            simp only [List.filterMap_cons, hfs, hs1, if_pos hk]
            exact ihE
          | some s1 =>
            simp only [List.filterMap_cons, hfs, hs1, if_pos hk, if_neg (hhead s1 hs1)]
            exact ihE
      · have hcond : ¬ ((fun ent : (Nat × String × Nat) × Edge =>
            decide (ent.1.1 = sid) && decide (ent.1.2.1 = k))
            ((i, e.kind, e.id), e) = true) := by
          simp [hk]
        rw [hidx, filter_cons_neg_x
          (fun ent => decide (ent.1.1 = sid) && decide (ent.1.2.1 = k))
          ((i, e.kind, e.id), e) _ hcond]
        simp only [List.filterMap_cons, if_neg hk]
        exact ihE

/-- The edge query of the two realizations agrees on the abstraction, for
stores in which no usr was indexed twice: the sled prefix scan over the
composite index enumerates exactly the rows of the SQLite two-way join. -/
theorem sled_query_sim (d : Sqlite.Db)
    (hids : (d.symbols.map (fun s => s.id)).Nodup)
    (husr : (symUsrs d).Nodup) (k u : String) :
    Sled.query_edges_by_kind_from (reprSled d) k u =
      Sqlite.query_edges_by_kind_from d k u := by
  unfold Sled.query_edges_by_kind_from Sqlite.query_edges_by_kind_from
  rw [sled_find_symbol_sim]
  cases hfind : Sqlite.find_symbol_by_usr d u with
  | none =>
    have hnone : d.symbols.find? (fun s => decide (s.usr = some u)) = none := by
      unfold Sqlite.find_symbol_by_usr at hfind
      cases hf : d.symbols.find? (fun s => decide (s.usr = some u)) with
      | none => rfl
      | some s => rw [hf] at hfind; simp at hfind
    have hno : ∀ s ∈ d.symbols, ¬ s.usr = some u := by
      intro s hs
      have := List.find?_eq_none.mp hnone s hs
      simpa using this
    symm
    rw [List.filterMap_eq_nil_iff]
    intro e he
    by_cases hk : e.kind = k
    · cases hfs : e.from_sym with
      | none => simp only [if_pos hk, hfs]
      | some i =>
        cases hs1 : d.symbols.find? (fun s => decide (s.id = i)) with
        | none => simp only [if_pos hk, hfs, hs1]
        | some s1 =>
          simp only [if_pos hk, hfs, hs1,
            if_neg (hno s1 (List.mem_of_find?_eq_some hs1))]
    · simp [hk]
  | some sid =>
    obtain ⟨s₀, hs₀find, hs₀id⟩ : ∃ s₀,
        d.symbols.find? (fun s => decide (s.usr = some u)) = some s₀ ∧ s₀.id = sid := by
      unfold Sqlite.find_symbol_by_usr at hfind
      cases hf : d.symbols.find? (fun s => decide (s.usr = some u)) with
      | none => rw [hf] at hfind; simp at hfind
      | some s₀ =>
        rw [hf] at hfind
        exact ⟨s₀, rfl, by simpa using hfind⟩
    have hs₀mem : s₀ ∈ d.symbols := List.mem_of_find?_eq_some hs₀find
    have hs₀usr : s₀.usr = some u := by simpa using List.find?_some hs₀find
    simp only [reprSled, assocFind_symbolsOf]
    exact query_join_aux d.symbols d.edges k u sid s₀ hs₀mem hs₀usr hs₀id hids husr

theorem repr_files_key_ne {d : Sqlite.Db} (h : SqlWF d) :
    ∀ ent ∈ (reprSled d).files, ent.1 ≠ Sled.FileKey.byId d.nextFileId := by
  show ∀ ent ∈ (d.files.map fileOfRow).flatMap filePair, _
  apply filePair_key_ne_byId
  intro f hf
  rcases List.mem_map.mp hf with ⟨r, hr, rfl⟩
  exact fun hc => absurd (hc ▸ h.files_lt r hr) (lt_irrefl _)

theorem repr_modules_key_ne {d : Sqlite.Db} (h : SqlWF d) :
    ∀ ent ∈ (reprSled d).modules, ent.1 ≠ Sled.ModKey.byId d.nextModuleId := by
  show ∀ ent ∈ (d.modules.map modOfRow).flatMap modPair, _
  apply modPair_key_ne_byId
  intro m hm
  rcases List.mem_map.mp hm with ⟨r, hr, rfl⟩
  exact fun hc => absurd (hc ▸ h.modules_lt r hr) (lt_irrefl _)

theorem repr_symbols_key_ne {d : Sqlite.Db} (h : SqlWF d) :
    ∀ ent ∈ (reprSled d).symbols, ent.1 ≠ d.nextSymbolId := by
  intro ent hent
  rcases List.mem_map.mp hent with ⟨s, hs, rfl⟩
  exact fun hc => absurd (hc ▸ h.symbols_lt s hs) (lt_irrefl _)

theorem repr_occ_key_ne {d : Sqlite.Db} (h : SqlWF d) :
    ∀ ent ∈ (reprSled d).occurrences, ent.1 ≠ d.nextOccId := by
  intro ent hent
  rcases List.mem_map.mp hent with ⟨o, ho, rfl⟩
  exact fun hc => absurd (hc ▸ h.occ_lt o ho) (lt_irrefl _)

theorem repr_edges_key_ne {d : Sqlite.Db} (h : SqlWF d) :
    ∀ ent ∈ (reprSled d).edges, ent.1 ≠ d.nextEdgeId := by
  intro ent hent
  rcases List.mem_map.mp hent with ⟨e, he, rfl⟩
  exact fun hc => absurd (hc ▸ h.edges_lt e he) (lt_irrefl _)

theorem repr_edgesFrom_key_ne {d : Sqlite.Db} (h : SqlWF d) (f : Nat) (k : String) :
    ∀ ent ∈ (reprSled d).edgesFrom, ent.1 ≠ (f, k, d.nextEdgeId) := by
  intro ent hent
  rcases List.mem_filterMap.mp hent with ⟨e, he, hmap⟩
  cases hfs : e.from_sym with
  | none => simp [hfs] at hmap
  | some f' =>
    simp only [hfs, Option.map_some'] at hmap
    injection hmap with hmap
    intro hc
    rw [← hmap] at hc
    have : e.id = d.nextEdgeId := congrArg (fun x => x.2.2) hc
    exact absurd (this ▸ h.edges_lt e he) (lt_irrefl _)

theorem repr_usrIndex_key_ne {d : Sqlite.Db} {u : String} (hu : u ∉ symUsrs d) :
    ∀ ent ∈ (reprSled d).symbolByUsr, ent.1 ≠ u := by
  intro ent hent
  rcases List.mem_filterMap.mp hent with ⟨s, hs, hmap⟩
  cases hsu : s.usr with
  | none => simp [hsu] at hmap
  | some w =>
    simp only [hsu, Option.map_some'] at hmap
    injection hmap with hmap
    intro hc
    apply hu
    rw [← hc, ← hmap]
    show w ∈ symUsrs d
    exact List.mem_filterMap.mpr ⟨s, hs, hsu⟩

/-- The sled `ensure_file` commutes with the abstraction map. -/
theorem repr_ensure_file {d : Sqlite.Db} (h : SqlWF d) (p l : String) :
    Sled.ensure_file (reprSled d) p l =
      ((Sqlite.ensure_file d p l).1, reprSled (Sqlite.ensure_file d p l).2) := by
  have hlook : assocFind (reprSled d).files (Sled.FileKey.byPath p) =
      (d.files.find? (fun f => decide (f.path = p))).map fileOfRow := by
    show assocFind ((d.files.map fileOfRow).flatMap filePair) _ = _
    rw [assocFind_flatMap_filePair, List.find?_map]
    rfl
  cases hfind : d.files.find? (fun f => decide (f.path = p)) with
  | some f =>
    have hsome : assocFind (reprSled d).files (Sled.FileKey.byPath p) =
        some (fileOfRow f) := by
      rw [hlook, hfind]
      rfl
    show Sled.ensure_file_with_category _ "1" p l none none = _
    rw [sled_ensure_file_hit hsome "1" l none none]
    simp only [Sqlite.ensure_file, hfind]
    rfl
  | none =>
    have hnone : assocFind (reprSled d).files (Sled.FileKey.byPath p) = none := by
      rw [hlook, hfind]
      rfl
    show Sled.ensure_file_with_category _ "1" p l none none = _
    rw [sled_ensure_file_miss hnone (repr_files_key_ne h) "1" l none none]
    simp only [Sqlite.ensure_file, hfind]
    refine congrArg _ ?_
    show _ = reprSled _
    simp only [reprSled, List.map_append, List.flatMap_append]
    rfl

/-- The sled `upsert_module` commutes with the abstraction map. -/
theorem repr_upsert_module {d : Sqlite.Db} (h : SqlWF d) (n k p : String) :
    Sled.upsert_module (reprSled d) n k p =
      ((Sqlite.upsert_module d n k p).1, reprSled (Sqlite.upsert_module d n k p).2) := by
  have hlook : assocFind (reprSled d).modules (Sled.ModKey.byName n) =
      (d.modules.find? (fun m => decide (m.name = n))).map modOfRow := by
    show assocFind ((d.modules.map modOfRow).flatMap modPair) _ = _
    rw [assocFind_flatMap_modPair, List.find?_map]
    rfl
  cases hfind : d.modules.find? (fun m => decide (m.name = n)) with
  | some m =>
    have hsome : assocFind (reprSled d).modules (Sled.ModKey.byName n) =
        some (modOfRow m) := by
      rw [hlook, hfind]
      rfl
    rw [sled_upsert_module_hit hsome k p]
    simp only [Sqlite.upsert_module, hfind]
    rfl
  | none =>
    have hnone : assocFind (reprSled d).modules (Sled.ModKey.byName n) = none := by
      rw [hlook, hfind]
      rfl
    rw [sled_upsert_module_miss hnone (repr_modules_key_ne h) k p]
    simp only [Sqlite.upsert_module, hfind]
    refine congrArg _ ?_
    show _ = reprSled _
    simp only [reprSled, List.map_append, List.flatMap_append]
    rfl

/-- The sled `insert_symbol` commutes with the abstraction map, provided
the supplied usr was not indexed before (otherwise the sled index is
repointed while the SQLite lookup keeps answering the first row). -/
theorem repr_insert_symbol {d : Sqlite.Db} (h : SqlWF d) (fid : Nat)
    (usr key : Option String) (nm kd : String) (df : Bool)
    (hu : ∀ u, usr = some u → u ∉ symUsrs d) :
    Sled.insert_symbol (reprSled d) fid usr key nm kd df =
      ((Sqlite.insert_symbol d fid usr key nm kd df).1,
       reprSled (Sqlite.insert_symbol d fid usr key nm kd df).2) := by
  have happ : assocInsert (reprSled d).symbols d.nextSymbolId
      ⟨d.nextSymbolId, fid, usr, key, nm, kd, df⟩ =
      (reprSled d).symbols ++
        [(d.nextSymbolId, ⟨d.nextSymbolId, fid, usr, key, nm, kd, df⟩)] :=
    assocInsert_of_forall_ne _ (repr_symbols_key_ne h)
  cases usr with
  | none =>
    show (d.nextSymbolId, _) = (d.nextSymbolId, _)
    refine congrArg _ ?_
    simp only [Sled.insert_symbol, Sqlite.insert_symbol, reprSled] at happ ⊢
    rw [happ]
    simp only [List.map_append, List.filterMap_append, List.map_cons, List.map_nil,
      List.filterMap_cons, List.filterMap_nil, Option.map_none', List.append_nil]
  | some u =>
    have hidx : assocInsert (reprSled d).symbolByUsr u d.nextSymbolId =
        (reprSled d).symbolByUsr ++ [(u, d.nextSymbolId)] :=
      assocInsert_of_forall_ne _ (repr_usrIndex_key_ne (hu u rfl))
    show (d.nextSymbolId, _) = (d.nextSymbolId, _)
    refine congrArg _ ?_
    simp only [Sled.insert_symbol, Sqlite.insert_symbol, reprSled] at happ hidx ⊢
    rw [happ, hidx]
    simp only [List.map_append, List.filterMap_append, List.map_cons, List.map_nil,
      List.filterMap_cons, List.filterMap_nil, Option.map_some', List.append_nil]

/-- The sled `insert_occurrence` commutes with the abstraction map. -/
theorem repr_insert_occurrence {d : Sqlite.Db} (h : SqlWF d) (sid fid : Nat)
    (usage : String) (line col : Nat) :
    Sled.insert_occurrence (reprSled d) sid fid usage line col =
      ((Sqlite.insert_occurrence d sid fid usage line col).1,
       reprSled (Sqlite.insert_occurrence d sid fid usage line col).2) := by
  have happ : assocInsert (reprSled d).occurrences d.nextOccId
      ⟨d.nextOccId, sid, fid, usage, line, col⟩ =
      (reprSled d).occurrences ++
        [(d.nextOccId, ⟨d.nextOccId, sid, fid, usage, line, col⟩)] :=
    assocInsert_of_forall_ne _ (repr_occ_key_ne h)
  show (d.nextOccId, _) = (d.nextOccId, _)
  refine congrArg _ ?_
  simp only [Sled.insert_occurrence, Sqlite.insert_occurrence, reprSled] at happ ⊢
  rw [happ]
  simp only [List.map_append, List.filterMap_append, List.map_cons, List.map_nil,
    List.filterMap_cons, List.filterMap_nil, List.append_nil]

/-- The sled `insert_edge` commutes with the abstraction map. -/
theorem repr_insert_edge {d : Sqlite.Db} (h : SqlWF d)
    (fs ts fm tm : Option Nat) (k : String) :
    Sled.insert_edge (reprSled d) fs ts fm tm k =
      ((Sqlite.insert_edge d fs ts fm tm k).1,
       reprSled (Sqlite.insert_edge d fs ts fm tm k).2) := by
  have happ : assocInsert (reprSled d).edges d.nextEdgeId
      ⟨d.nextEdgeId, fs, ts, fm, tm, k⟩ =
      (reprSled d).edges ++ [(d.nextEdgeId, ⟨d.nextEdgeId, fs, ts, fm, tm, k⟩)] :=
    assocInsert_of_forall_ne _ (repr_edges_key_ne h)
  cases fs with
  | none =>
    show (d.nextEdgeId, _) = (d.nextEdgeId, _)
    refine congrArg _ ?_
    simp only [Sled.insert_edge, Sqlite.insert_edge, reprSled] at happ ⊢
    rw [happ]
    simp only [List.map_append, List.filterMap_append, List.map_cons, List.map_nil,
      List.filterMap_cons, List.filterMap_nil, Option.map_none', List.append_nil]
  | some f =>
    have hidx : assocInsert (reprSled d).edgesFrom (f, k, d.nextEdgeId)
        ⟨d.nextEdgeId, some f, ts, fm, tm, k⟩ =
        (reprSled d).edgesFrom ++
          [((f, k, d.nextEdgeId), ⟨d.nextEdgeId, some f, ts, fm, tm, k⟩)] :=
      assocInsert_of_forall_ne _ (repr_edgesFrom_key_ne h f k)
    show (d.nextEdgeId, _) = (d.nextEdgeId, _)
    refine congrArg _ ?_
    simp only [Sled.insert_edge, Sqlite.insert_edge, reprSled] at happ hidx ⊢
    rw [happ, hidx]
    simp only [List.map_append, List.filterMap_append, List.map_cons, List.map_nil,
      List.filterMap_cons, List.filterMap_nil, Option.map_some', List.append_nil]

theorem repr_emptyDb : reprSled Sqlite.emptyDb = Sled.emptyDb := rfl

/-- Simulation for the refinement claim: running one call sequence against
both realizations leaves the sled store equal to the abstraction of the
SQLite store and the two answer logs pointwise related, provided no usr is
supplied to `insert_symbol` twice (counted together with the usrs already
indexed in the starting store). -/
theorem run_sim (ops : List Op) (d : Sqlite.Db) (hwf : SqlWF d)
    (hu : (symUsrs d ++ opUsrs ops).Nodup) :
    (runSledFrom (reprSled d) ops).1 = reprSled (runSqlFrom d ops).1 ∧
    List.Forall₂ AnsRel (runSqlFrom d ops).2 (runSledFrom (reprSled d) ops).2 := by
  induction ops generalizing d with
  | nil => exact ⟨rfl, List.Forall₂.nil⟩
  | cons op rest ih =>
    cases op with
    | ensureFile p l =>
      obtain ⟨hwf', _, _, _, husr⟩ := sqlWF_ensure_file hwf p l
      have hu' : (symUsrs (Sqlite.ensure_file d p l).2 ++ opUsrs rest).Nodup := by
        rw [husr]
        exact hu
      obtain ⟨ihst, ihans⟩ := ih (Sqlite.ensure_file d p l).2 hwf' hu'
      have hcomm := repr_ensure_file hwf p l
      constructor
      · show (runSledFrom (Sled.ensure_file (reprSled d) p l).2 rest).1 =
          reprSled (runSqlFrom (Sqlite.ensure_file d p l).2 rest).1
        rw [hcomm]
        exact ihst
      · show List.Forall₂ AnsRel
          (Ans.idA (Sqlite.ensure_file d p l).1 ::
            (runSqlFrom (Sqlite.ensure_file d p l).2 rest).2)
          (Ans.idA (Sled.ensure_file (reprSled d) p l).1 ::
            (runSledFrom (Sled.ensure_file (reprSled d) p l).2 rest).2)
        rw [hcomm]
        exact List.Forall₂.cons rfl ihans
    | upsertModule n k p =>
      obtain ⟨hwf', _, _, husr⟩ := sqlWF_upsert_module hwf n k p
      have hu' : (symUsrs (Sqlite.upsert_module d n k p).2 ++ opUsrs rest).Nodup := by
        rw [husr]
        exact hu
      obtain ⟨ihst, ihans⟩ := ih (Sqlite.upsert_module d n k p).2 hwf' hu'
      have hcomm := repr_upsert_module hwf n k p
      constructor
      · show (runSledFrom (Sled.upsert_module (reprSled d) n k p).2 rest).1 =
          reprSled (runSqlFrom (Sqlite.upsert_module d n k p).2 rest).1
        rw [hcomm]
        exact ihst
      · show List.Forall₂ AnsRel
          (Ans.idA (Sqlite.upsert_module d n k p).1 ::
            (runSqlFrom (Sqlite.upsert_module d n k p).2 rest).2)
          (Ans.idA (Sled.upsert_module (reprSled d) n k p).1 ::
            (runSledFrom (Sled.upsert_module (reprSled d) n k p).2 rest).2)
        rw [hcomm]
        exact List.Forall₂.cons rfl ihans
    | insertSymbol fid usr key nm kd df =>
      obtain ⟨hwf', _, _, husr⟩ := sqlWF_insert_symbol hwf fid usr key nm kd df
      have hop : opUsrs (Op.insertSymbol fid usr key nm kd df :: rest) =
          usr.toList ++ opUsrs rest := by
        cases usr <;> rfl
      have hu0 : (symUsrs d ++ (usr.toList ++ opUsrs rest)).Nodup := by
        rw [← hop]
        exact hu
      have hu' : (symUsrs (Sqlite.insert_symbol d fid usr key nm kd df).2 ++
          opUsrs rest).Nodup := by
        rw [husr, List.append_assoc]
        exact hu0
      have hnotin : ∀ u, usr = some u → u ∉ symUsrs d := by
        intro u hsome hmem
        subst hsome
        have hdis := (List.nodup_append.mp hu0).2.2
        exact hdis hmem (List.mem_append.mpr (Or.inl (by simp)))
      obtain ⟨ihst, ihans⟩ := ih (Sqlite.insert_symbol d fid usr key nm kd df).2 hwf' hu'
      have hcomm := repr_insert_symbol hwf fid usr key nm kd df hnotin
      constructor
      · show (runSledFrom (Sled.insert_symbol (reprSled d) fid usr key nm kd df).2
            rest).1 =
          reprSled (runSqlFrom (Sqlite.insert_symbol d fid usr key nm kd df).2 rest).1
        rw [hcomm]
        exact ihst
      · show List.Forall₂ AnsRel
          (Ans.idA (Sqlite.insert_symbol d fid usr key nm kd df).1 ::
            (runSqlFrom (Sqlite.insert_symbol d fid usr key nm kd df).2 rest).2)
          (Ans.idA (Sled.insert_symbol (reprSled d) fid usr key nm kd df).1 ::
            (runSledFrom (Sled.insert_symbol (reprSled d) fid usr key nm kd df).2
              rest).2)
        rw [hcomm]
        exact List.Forall₂.cons rfl ihans
    | insertOccurrence sid fid usage line col =>
      obtain ⟨hwf', _, _, husr⟩ := sqlWF_insert_occurrence hwf sid fid usage line col
      have hu' : (symUsrs (Sqlite.insert_occurrence d sid fid usage line col).2 ++
          opUsrs rest).Nodup := by
        rw [husr]
        exact hu
      obtain ⟨ihst, ihans⟩ :=
        ih (Sqlite.insert_occurrence d sid fid usage line col).2 hwf' hu'
      have hcomm := repr_insert_occurrence hwf sid fid usage line col
      constructor
      · show (runSledFrom
            (Sled.insert_occurrence (reprSled d) sid fid usage line col).2 rest).1 =
          reprSled (runSqlFrom
            (Sqlite.insert_occurrence d sid fid usage line col).2 rest).1
        rw [hcomm]
        exact ihst
      · show List.Forall₂ AnsRel
          (Ans.idA (Sqlite.insert_occurrence d sid fid usage line col).1 ::
            (runSqlFrom (Sqlite.insert_occurrence d sid fid usage line col).2 rest).2)
          (Ans.idA (Sled.insert_occurrence (reprSled d) sid fid usage line col).1 ::
            (runSledFrom (Sled.insert_occurrence (reprSled d) sid fid usage line
              col).2 rest).2)
        rw [hcomm]
        exact List.Forall₂.cons rfl ihans
    | insertEdge fs ts fm tm k =>
      obtain ⟨hwf', _, _, husr⟩ := sqlWF_insert_edge hwf fs ts fm tm k
      have hu' : (symUsrs (Sqlite.insert_edge d fs ts fm tm k).2 ++
          opUsrs rest).Nodup := by
        rw [husr]
        exact hu
      obtain ⟨ihst, ihans⟩ := ih (Sqlite.insert_edge d fs ts fm tm k).2 hwf' hu'
      have hcomm := repr_insert_edge hwf fs ts fm tm k
      constructor
      · show (runSledFrom (Sled.insert_edge (reprSled d) fs ts fm tm k).2 rest).1 =
          reprSled (runSqlFrom (Sqlite.insert_edge d fs ts fm tm k).2 rest).1
        rw [hcomm]
        exact ihst
      · show List.Forall₂ AnsRel
          (Ans.idA (Sqlite.insert_edge d fs ts fm tm k).1 ::
            (runSqlFrom (Sqlite.insert_edge d fs ts fm tm k).2 rest).2)
          (Ans.idA (Sled.insert_edge (reprSled d) fs ts fm tm k).1 ::
            (runSledFrom (Sled.insert_edge (reprSled d) fs ts fm tm k).2 rest).2)
        rw [hcomm]
        exact List.Forall₂.cons rfl ihans
    | findSymbol u =>
      have hu' : (symUsrs d ++ opUsrs rest).Nodup := hu
      obtain ⟨ihst, ihans⟩ := ih d hwf hu'
      constructor
      · exact ihst
      · show List.Forall₂ AnsRel
          (Ans.foundA (Sqlite.find_symbol_by_usr d u) :: (runSqlFrom d rest).2)
          (Ans.foundA (Sled.find_symbol_by_usr (reprSled d) u) ::
            (runSledFrom (reprSled d) rest).2)
        refine List.Forall₂.cons ?_ ihans
        show Sqlite.find_symbol_by_usr d u = Sled.find_symbol_by_usr (reprSled d) u
        exact (sled_find_symbol_sim d u).symm
    | queryEdges k u =>
      have hu' : (symUsrs d ++ opUsrs rest).Nodup := hu
      obtain ⟨ihst, ihans⟩ := ih d hwf hu'
      constructor
      · exact ihst
      · show List.Forall₂ AnsRel
          (Ans.namesA (Sqlite.query_edges_by_kind_from d k u) :: (runSqlFrom d rest).2)
          (Ans.namesA (Sled.query_edges_by_kind_from (reprSled d) k u) ::
            (runSledFrom (reprSled d) rest).2)
        refine List.Forall₂.cons ?_ ihans
        show (Sqlite.query_edges_by_kind_from d k u).Perm
          (Sled.query_edges_by_kind_from (reprSled d) k u)
        rw [sled_query_sim d hwf.symbols_nodup (List.nodup_append.mp hu).1 k u]

theorem uniq_by_keyfn {β γ : Type} (f : β → γ) {l : List β} (h : (l.map f).Nodup) :
    ∀ x ∈ l, ∀ y ∈ l, f x = f y → x = y := by
  induction l with
  | nil =>
    intro x hx
    cases hx
  | cons a t ih =>
    intro x hx y hy hf
    rcases List.mem_cons.mp hx with rfl | hxt
    · rcases List.mem_cons.mp hy with rfl | hyt
      · rfl
      · exfalso
        rw [List.map_cons] at h
        exact (List.nodup_cons.mp h).1 (List.mem_map.mpr ⟨y, hyt, hf.symm⟩)
    · rcases List.mem_cons.mp hy with rfl | hyt
      · exfalso
        rw [List.map_cons] at h
        exact (List.nodup_cons.mp h).1 (List.mem_map.mpr ⟨x, hxt, hf⟩)
      · exact ih (by rw [List.map_cons] at h; exact (List.nodup_cons.mp h).2) x hxt y hyt hf

theorem assocInsert_key_sub {κ α : Type} [DecidableEq κ] {l : List (κ × α)}
    {k : κ} {v : α} :
    ∀ ent ∈ assocInsert l k v, ent.1 = k ∨ ∃ e ∈ l, ent.1 = e.1 := by
  intro ent hent
  unfold assocInsert at hent
  by_cases hc : l.any (fun e => decide (e.1 = k)) = true
  · rw [if_pos hc] at hent
    rcases List.mem_map.mp hent with ⟨e', he', hmap⟩
    by_cases h2 : e'.1 = k
    · rw [if_pos h2] at hmap
      left
      rw [← hmap]
    · rw [if_neg h2] at hmap
      right
      exact ⟨e', he', by rw [← hmap]⟩
  · rw [if_neg hc] at hent
    rcases List.mem_append.mp hent with hl | hr
    · right
      exact ⟨ent, hl, rfl⟩
    · left
      simp only [List.mem_singleton] at hr
      rw [hr]

theorem sled_ensure_file_usrIdx (st : Sled.SymgraphDb) (pid p l : String)
    (c pu : Option String) :
    (Sled.ensure_file_with_category st pid p l c pu).2.symbolByUsr = st.symbolByUsr := by
  cases h : assocFind st.files (Sled.FileKey.byPath p) <;>
    simp [Sled.ensure_file_with_category, h]

theorem sled_upsert_module_usrIdx (st : Sled.SymgraphDb) (n k p : String) :
    (Sled.upsert_module st n k p).2.symbolByUsr = st.symbolByUsr := by
  cases h : assocFind st.modules (Sled.ModKey.byName n) <;>
    simp [Sled.upsert_module, h]

theorem sled_insert_edge_usrIdx (st : Sled.SymgraphDb) (fs ts fm tm : Option Nat)
    (k : String) :
    (Sled.insert_edge st fs ts fm tm k).2.symbolByUsr = st.symbolByUsr := by
  cases fs <;> rfl

/-- Running a sequence that never supplies usr `u` to `insert_symbol` never
creates a `symbol_by_usr:{u}` index entry. -/
theorem sled_run_usr_keys (ops : List Op) (st : Sled.SymgraphDb) (u : String)
    (h0 : ∀ ent ∈ st.symbolByUsr, ent.1 ≠ u) (hu : u ∉ opUsrs ops) :
    ∀ ent ∈ (runSledFrom st ops).1.symbolByUsr, ent.1 ≠ u := by
  induction ops generalizing st with
  | nil => exact h0
  | cons op rest ih =>
    cases op with
    | ensureFile p l =>
      apply ih (Sled.ensure_file st p l).2 _ hu
      rw [show (Sled.ensure_file st p l).2.symbolByUsr = st.symbolByUsr from
        sled_ensure_file_usrIdx st "1" p l none none]
      exact h0
    | upsertModule n k p =>
      apply ih (Sled.upsert_module st n k p).2 _ hu
      rw [sled_upsert_module_usrIdx st n k p]
      exact h0
    | insertSymbol fid usr key nm kd df =>
      have hop : opUsrs (Op.insertSymbol fid usr key nm kd df :: rest) =
          usr.toList ++ opUsrs rest := by
        cases usr <;> rfl
      rw [hop] at hu
      have hu1 : u ∉ opUsrs rest := fun hc => hu (List.mem_append.mpr (Or.inr hc))
      apply ih (Sled.insert_symbol st fid usr key nm kd df).2 _ hu1
      cases usr with
      | none => exact h0
      | some w =>
        have hw : w ≠ u := by
          intro hc
          subst hc
          exact hu (List.mem_append.mpr (Or.inl (by simp)))
        have hstate : (Sled.insert_symbol st fid (some w) key nm kd df).2.symbolByUsr =
            assocInsert st.symbolByUsr w st.nextSymbolId := rfl
        rw [hstate]
        intro ent hent
        rcases assocInsert_key_sub ent hent with hk | ⟨e, he, hk⟩
        · rw [hk]
          exact hw
        · rw [hk]
          exact h0 e he
    | insertOccurrence sid fid usage line col =>
      exact ih (Sled.insert_occurrence st sid fid usage line col).2 h0 hu
    | insertEdge fs ts fm tm k =>
      apply ih (Sled.insert_edge st fs ts fm tm k).2 _ hu
      rw [sled_insert_edge_usrIdx st fs ts fm tm k]
      exact h0
    | findSymbol w => exact ih st h0 hu
    | queryEdges k w => exact ih st h0 hu

/-- The SQLite join yields nothing when no symbol row carries the usr. -/
theorem sql_query_empty_of_no_usr (d : Sqlite.Db) (k u : String)
    (h : ∀ s ∈ d.symbols, ¬ s.usr = some u) :
    Sqlite.query_edges_by_kind_from d k u = [] := by
  unfold Sqlite.query_edges_by_kind_from
  rw [List.filterMap_eq_nil_iff]
  intro e he
  by_cases hk : e.kind = k
  · cases hfs : e.from_sym with
    | none => simp only [if_pos hk, hfs]
    | some i =>
      cases hs1 : d.symbols.find? (fun s => decide (s.id = i)) with
      | none => simp only [if_pos hk, hfs, hs1]
      | some s1 =>
        simp only [if_pos hk, hfs, hs1,
          if_neg (h s1 (List.mem_of_find?_eq_some hs1))]
  · simp [hk]

/-- The prefix scan of `edges_from:{sid}:{k}:` over the index built from an
edge list enumerates exactly the edges of kind `k` with symbol source
`sid`. -/
theorem scan_vs_edges (es : List Edge) (sid : Nat) (k : String)
    (proj : Edge → Option String) :
    ((es.filterMap (fun e => e.from_sym.map (fun f => ((f, e.kind, e.id), e)))).filter
        (fun ent => decide (ent.1.1 = sid) && decide (ent.1.2.1 = k))).filterMap
      (fun ent => proj ent.2) =
    (es.filter (fun e => decide (e.from_sym = some sid) && decide (e.kind = k))).filterMap
      proj := by
  induction es with
  | nil => rfl
  | cons e es ihE =>
    cases hfs : e.from_sym with
    | none =>
      have hcond : ¬ ((fun e : Edge =>
          decide (e.from_sym = some sid) && decide (e.kind = k)) e = true) := by
        simp [hfs]
      rw [List.filterMap_cons, hfs]
      rw [filter_cons_neg_x (fun e => decide (e.from_sym = some sid) &&
        decide (e.kind = k)) e _ hcond]
      exact ihE
    | some i =>
      have hidx : (e :: es).filterMap
          (fun e => e.from_sym.map (fun f => ((f, e.kind, e.id), e))) =
          ((i, e.kind, e.id), e) :: es.filterMap
            (fun e => e.from_sym.map (fun f => ((f, e.kind, e.id), e))) := by
        simp only [List.filterMap_cons, hfs, Option.map_some']
      by_cases hc : i = sid ∧ e.kind = k
      · have h1 : (fun ent : (Nat × String × Nat) × Edge =>
            decide (ent.1.1 = sid) && decide (ent.1.2.1 = k))
            ((i, e.kind, e.id), e) = true := by
          simp [hc.1, hc.2]
        have h2 : (fun e : Edge =>
            decide (e.from_sym = some sid) && decide (e.kind = k)) e = true := by
          simp [hfs, hc.1, hc.2]
        rw [hidx, filter_cons_pos_x
          (fun ent => decide (ent.1.1 = sid) && decide (ent.1.2.1 = k))
          ((i, e.kind, e.id), e) _ h1, filter_cons_pos_x
          (fun e => decide (e.from_sym = some sid) && decide (e.kind = k)) e _ h2,
          List.filterMap_cons, List.filterMap_cons]
        rw [ihE]
      · have h1 : ¬ ((fun ent : (Nat × String × Nat) × Edge =>
            decide (ent.1.1 = sid) && decide (ent.1.2.1 = k))
            ((i, e.kind, e.id), e) = true) := by
          simp only [Bool.and_eq_true, decide_eq_true_eq]
          intro hx
          exact hc hx
        have h2 : ¬ ((fun e : Edge =>
            decide (e.from_sym = some sid) && decide (e.kind = k)) e = true) := by
          simp only [Bool.and_eq_true, decide_eq_true_eq, hfs]
          intro hx
          exact hc ⟨by injection hx.1, hx.2⟩
        rw [hidx, filter_cons_neg_x
          (fun ent => decide (ent.1.1 = sid) && decide (ent.1.2.1 = k))
          ((i, e.kind, e.id), e) _ h1, filter_cons_neg_x
          (fun e => decide (e.from_sym = some sid) && decide (e.kind = k)) e _ h2]
        exact ihE

theorem length_flatMap_filePair (l : List Sled.File) :
    (l.flatMap filePair).length = 2 * l.length := by
  induction l with
  | nil => rfl
  | cons f t ih =>
    simp only [List.flatMap_cons, List.length_append, ih, filePair]
    simp [Nat.mul_add, Nat.mul_succ]
    omega

theorem map_flatMap_filePair {β : Type} (g : Sled.FileKey × Sled.File → β)
    (l : List Sled.File) :
    (l.flatMap filePair).map g =
      l.flatMap (fun F => [g (Sled.FileKey.byPath F.path, F),
        g (Sled.FileKey.byId F.id, F)]) := by
  induction l with
  | nil => rfl
  | cons f t ih => simp [List.flatMap_cons, filePair, ih]

theorem count_flatMap_double {α β : Type} [DecidableEq β] (g : α → β)
    (l : List α) (x : β) :
    (l.flatMap (fun a => [g a, g a])).count x = 2 * (l.map g).count x := by
  induction l with
  | nil => rfl
  | cons a t ih =>
    simp only [List.flatMap_cons, List.count_append, ih, List.map_cons]
    by_cases h : g a = x
    · simp [List.count_cons, h]
      omega
    · simp [List.count_cons, h]

/-- C3: a usr never supplied to `insert_symbol` resolves to nothing in both
realizations, and after one `insert_symbol` call carrying that usr, the
lookup returns exactly the id that call answered (round trip), again in
both realizations. -/
theorem c3_usr_round_trip (ops : List Op) (u : String) (hu : u ∉ opUsrs ops)
    (fid : Nat) (key : Option String) (nm kd : String) (df : Bool) :
    Sqlite.find_symbol_by_usr (runSqlFrom Sqlite.emptyDb ops).1 u = none ∧
    Sled.find_symbol_by_usr (runSledFrom Sled.emptyDb ops).1 u = none ∧
    Sqlite.find_symbol_by_usr
        (Sqlite.insert_symbol (runSqlFrom Sqlite.emptyDb ops).1 fid (some u)
          key nm kd df).2 u =
      some (Sqlite.insert_symbol (runSqlFrom Sqlite.emptyDb ops).1 fid (some u)
        key nm kd df).1 ∧
    Sled.find_symbol_by_usr
        (Sled.insert_symbol (runSledFrom Sled.emptyDb ops).1 fid (some u)
          key nm kd df).2 u =
      some (Sled.insert_symbol (runSledFrom Sled.emptyDb ops).1 fid (some u)
        key nm kd df).1 := by
  have hsym : symUsrs (runSqlFrom Sqlite.emptyDb ops).1 = opUsrs ops := by
    have h := (sql_run_wf ops Sqlite.emptyDb sqlWF_emptyDb).2.2.2.2
    simpa [symUsrs, Sqlite.emptyDb] using h
  have hnos : ∀ s ∈ (runSqlFrom Sqlite.emptyDb ops).1.symbols, ¬ s.usr = some u := by
    intro s hs hc
    apply hu
    rw [← hsym]
    exact List.mem_filterMap.mpr ⟨s, hs, hc⟩
  have hfq : (runSqlFrom Sqlite.emptyDb ops).1.symbols.find?
      (fun s => decide (s.usr = some u)) = none := by
    rw [List.find?_eq_none]
    intro s hs
    simpa using hnos s hs
  have hkeys : ∀ ent ∈ (runSledFrom Sled.emptyDb ops).1.symbolByUsr, ent.1 ≠ u :=
    sled_run_usr_keys ops Sled.emptyDb u (by intro ent hent; cases hent) hu
  refine ⟨?_, ?_, ?_, ?_⟩
  · show ((runSqlFrom Sqlite.emptyDb ops).1.symbols.find? _).map _ = none
    rw [hfq]
    rfl
  · exact assocFind_eq_none_iff.mpr hkeys
  · show (((runSqlFrom Sqlite.emptyDb ops).1.symbols ++
        ([⟨(runSqlFrom Sqlite.emptyDb ops).1.nextSymbolId, fid, some u, key, nm, kd,
          df⟩] : List Symbol)).find? (fun s => decide (s.usr = some u))).map
        (fun s => s.id) =
      some (runSqlFrom Sqlite.emptyDb ops).1.nextSymbolId
    rw [List.find?_append, hfq]
    simp [List.find?_cons]
  · show assocFind (assocInsert
        (runSledFrom Sled.emptyDb ops).1.symbolByUsr u
        (runSledFrom Sled.emptyDb ops).1.nextSymbolId) u =
      some (runSledFrom Sled.emptyDb ops).1.nextSymbolId
    exact assocFind_assocInsert_self _ _ _

/-- C3 witness at a concrete input. -/
theorem c3_witness :
    "u" ∉ opUsrs [] ∧
    (Sqlite.find_symbol_by_usr (runSqlFrom Sqlite.emptyDb []).1 "u" = none ∧
     Sled.find_symbol_by_usr (runSledFrom Sled.emptyDb []).1 "u" = none ∧
     Sqlite.find_symbol_by_usr
         (Sqlite.insert_symbol (runSqlFrom Sqlite.emptyDb []).1 1 (some "u")
           none "n" "k" true).2 "u" =
       some (Sqlite.insert_symbol (runSqlFrom Sqlite.emptyDb []).1 1 (some "u")
         none "n" "k" true).1 ∧
     Sled.find_symbol_by_usr
         (Sled.insert_symbol (runSledFrom Sled.emptyDb []).1 1 (some "u")
           none "n" "k" true).2 "u" =
       some (Sled.insert_symbol (runSledFrom Sled.emptyDb []).1 1 (some "u")
         none "n" "k" true).1) :=
  ⟨by decide, c3_usr_round_trip [] "u" (by decide) 1 none "n" "k" true⟩

/-- C4: `ensure_file` is idempotent in both realizations — a repeat call on
the same path returns the first call's id and leaves the store (and hence
the stored record, category and purpose) unchanged — and an `ensure_file`
on a path never ensured before answers an id different from every id any
earlier `ensure_file` call answered. -/
theorem c4_ensure_file_idempotent :
    (∀ (st : Sled.SymgraphDb) (pid pid' p l l' : String) (c pu c' pu' : Option String),
      Sled.ensure_file_with_category
          ((Sled.ensure_file_with_category st pid p l c pu).2) pid' p l' c' pu' =
        ((Sled.ensure_file_with_category st pid p l c pu).1,
         (Sled.ensure_file_with_category st pid p l c pu).2)) ∧
    (∀ (d : Sqlite.Db) (p l l' : String),
      Sqlite.ensure_file (Sqlite.ensure_file d p l).2 p l' =
        ((Sqlite.ensure_file d p l).1, (Sqlite.ensure_file d p l).2)) ∧
    (∀ (ops : List Op) (p' l' : String), p' ∉ ensPaths ops →
      (Sled.ensure_file (runSledFrom Sled.emptyDb ops).1 p' l').1 ∉
        ensAnswers ops (runSledFrom Sled.emptyDb ops).2 ∧
      (Sqlite.ensure_file (runSqlFrom Sqlite.emptyDb ops).1 p' l').1 ∉
        ensAnswers ops (runSqlFrom Sqlite.emptyDb ops).2) := by
  refine ⟨sled_ensure_file_repeat, ?_, ?_⟩
  · intro d p l l'
    cases hf : d.files.find? (fun f => decide (f.path = p)) with
    | some f => simp [Sqlite.ensure_file, hf]
    | none =>
      have hfind2 : (d.files ++ ([⟨d.nextFileId, p, l⟩] : List Sqlite.FileRow)).find?
          (fun f => decide (f.path = p)) = some (⟨d.nextFileId, p, l⟩ : Sqlite.FileRow) := by
        rw [List.find?_append, hf]
        simp [List.find?_cons]
      simp [Sqlite.ensure_file, hf, hfind2]
  · intro ops p' l' hp
    obtain ⟨Hwf, _, Hans, Hpaths⟩ := sled_run_wf ops Sled.emptyDb sledWF_emptyDb
    obtain ⟨Gwf, _, Gans, Gpaths, _⟩ := sql_run_wf ops Sqlite.emptyDb sqlWF_emptyDb
    constructor
    · have hnp : p' ∉ (canonFiles (runSledFrom Sled.emptyDb ops).1).map
          (fun f => f.path) := by
        intro hc
        rcases (Hpaths p').mp hc with hl | hr
        · simp [canonFiles, Sled.emptyDb] at hl
        · exact hp hr
      have hlook : assocFind (runSledFrom Sled.emptyDb ops).1.files
          (Sled.FileKey.byPath p') = none := by
        rw [sled_find_file_eq Hwf, List.find?_eq_none]
        intro f hf hc
        exact hnp (List.mem_map.mpr ⟨f, hf, by simpa using hc⟩)
      have hret : (Sled.ensure_file (runSledFrom Sled.emptyDb ops).1 p' l').1 =
          (runSledFrom Sled.emptyDb ops).1.nextFileId := by
        show (Sled.ensure_file_with_category _ "1" p' l' none none).1 = _
        simp [Sled.ensure_file_with_category, hlook]
      rw [hret]
      intro hmem
      exact absurd (Hans _ hmem) (lt_irrefl _)
    · have hnp : p' ∉ (runSqlFrom Sqlite.emptyDb ops).1.files.map
          (fun f => f.path) := by
        intro hc
        rcases (Gpaths p').mp hc with hl | hr
        · simp [Sqlite.emptyDb] at hl
        · exact hp hr
      have hlook : (runSqlFrom Sqlite.emptyDb ops).1.files.find?
          (fun f => decide (f.path = p')) = none := by
        rw [List.find?_eq_none]
        intro f hf hc
        exact hnp (List.mem_map.mpr ⟨f, hf, by simpa using hc⟩)
      have hret : (Sqlite.ensure_file (runSqlFrom Sqlite.emptyDb ops).1 p' l').1 =
          (runSqlFrom Sqlite.emptyDb ops).1.nextFileId := by
        simp [Sqlite.ensure_file, hlook]
      rw [hret]
      intro hmem
      exact absurd (Gans _ hmem) (lt_irrefl _)

/-- C4 witness at a concrete input. -/
theorem c4_witness :
    "g" ∉ ensPaths [Op.ensureFile "f" "c"] ∧
    ((Sled.ensure_file (runSledFrom Sled.emptyDb [Op.ensureFile "f" "c"]).1
        "g" "c").1 ∉
      ensAnswers [Op.ensureFile "f" "c"]
        (runSledFrom Sled.emptyDb [Op.ensureFile "f" "c"]).2 ∧
     (Sqlite.ensure_file (runSqlFrom Sqlite.emptyDb [Op.ensureFile "f" "c"]).1
        "g" "c").1 ∉
      ensAnswers [Op.ensureFile "f" "c"]
        (runSqlFrom Sqlite.emptyDb [Op.ensureFile "f" "c"]).2) :=
  ⟨by decide,
   c4_ensure_file_idempotent.2.2 [Op.ensureFile "f" "c"] "g" "c" (by decide)⟩

/-- C7: an unresolved usr makes `query_edges_by_kind_from` answer the empty
list (no error), indistinguishable from a resolvable symbol with no
outgoing edge of the kind — in the key-value realization and in the
relational realization (where "unresolved" means no symbol row carries the
usr). -/
theorem c7_unresolved_usr_empty :
    (∀ (st : Sled.SymgraphDb) (k u : String),
      Sled.find_symbol_by_usr st u = none →
        Sled.query_edges_by_kind_from st k u = []) ∧
    (∀ (st : Sled.SymgraphDb), SledWF st → ∀ (k u : String) (sid : Nat),
      Sled.find_symbol_by_usr st u = some sid →
      (∀ ent ∈ st.edges, ¬ (ent.2.from_sym = some sid ∧ ent.2.kind = k)) →
        Sled.query_edges_by_kind_from st k u = []) ∧
    (∀ (d : Sqlite.Db) (k u : String),
      (∀ s ∈ d.symbols, ¬ s.usr = some u) →
        Sqlite.query_edges_by_kind_from d k u = []) := by
  refine ⟨?_, ?_, ?_⟩
  · intro st k u h
    simp [Sled.query_edges_by_kind_from, h]
  · intro st hwf k u sid hfind hnoe
    unfold Sled.query_edges_by_kind_from
    simp only [hfind]
    have hfilter : st.edgesFrom.filter
        (fun ent => decide (ent.1.1 = sid) && decide (ent.1.2.1 = k)) = [] := by
      rw [List.filter_eq_nil_iff]
      intro ent hent
      rw [hwf.edgesFrom_shape] at hent
      rcases List.mem_filterMap.mp hent with ⟨e, he, hmap⟩
      cases hfs : e.2.from_sym with
      | none => simp [hfs] at hmap
      | some f' =>
        simp only [hfs, Option.map_some'] at hmap
        injection hmap with hmap
        subst hmap
        simp only [Bool.and_eq_true, decide_eq_true_eq, not_and]
        intro h1 h2
        exact hnoe e he ⟨by rw [hfs, h1], h2⟩
    rw [hfilter]
    rfl
  · intro d k u h
    exact sql_query_empty_of_no_usr d k u h

/-- C7 witness at a concrete input. -/
theorem c7_witness :
    Sled.find_symbol_by_usr Sled.emptyDb "u" = none ∧
    Sled.query_edges_by_kind_from Sled.emptyDb "call" "u" = [] :=
  ⟨by decide, c7_unresolved_usr_empty.1 Sled.emptyDb "call" "u" (by decide)⟩

/-- C9: `ensure_project` stores a record with empty annotation fields on
first use of a root path, and a repeat call on the same root path returns
the stored id and leaves the store — hence the stored record, its name and
its empty annotation fields — entirely unchanged, whatever name and
timestamp the repeat call supplies (first writer wins). -/
theorem c9_ensure_project_first_writer_wins (st : Sled.SymgraphDb) (n r now : String) :
    (∀ P, assocFind st.projects (Sled.ProjKey.byRoot r) = some P →
      ∀ n' now', Sled.ensure_project st n' r now' = (P.id, st)) ∧
    (assocFind st.projects (Sled.ProjKey.byRoot r) = none →
      assocFind (Sled.ensure_project st n r now).2.projects (Sled.ProjKey.byRoot r) =
        some ⟨(Sled.ensure_project st n r now).1, n, r, none, none, none, none, now⟩ ∧
      ∀ n' now', Sled.ensure_project (Sled.ensure_project st n r now).2 n' r now' =
        ((Sled.ensure_project st n r now).1, (Sled.ensure_project st n r now).2)) := by
  constructor
  · intro P hP n' now'
    exact sled_ensure_project_hit hP n' now'
  · intro hnone
    rw [sled_ensure_project_miss hnone n now]
    have hfind : assocFind (assocInsert (assocInsert st.projects
        (Sled.ProjKey.byRoot r) ⟨st.nextProjectId, n, r, none, none, none, none, now⟩)
        (Sled.ProjKey.byId st.nextProjectId)
        ⟨st.nextProjectId, n, r, none, none, none, none, now⟩)
        (Sled.ProjKey.byRoot r) =
        some ⟨st.nextProjectId, n, r, none, none, none, none, now⟩ := by
      rw [assocFind_assocInsert_ne _ _ (by intro hc; cases hc)]
      exact assocFind_assocInsert_self _ _ _
    exact ⟨hfind, fun n' now' => sled_ensure_project_hit hfind n' now'⟩

theorem sql_upsert_hit {d : Sqlite.Db} {n : String} {m : Sqlite.ModuleRow}
    (h : d.modules.find? (fun m => decide (m.name = n)) = some m) (k p : String) :
    Sqlite.upsert_module d n k p = (m.id, d) := by
  simp [Sqlite.upsert_module, h]

theorem sql_upsert_miss {d : Sqlite.Db} {n : String}
    (h : d.modules.find? (fun m => decide (m.name = n)) = none) (k p : String) :
    Sqlite.upsert_module d n k p =
      (d.nextModuleId, { d with
        modules := d.modules ++ [⟨d.nextModuleId, n, k, p⟩]
        nextModuleId := d.nextModuleId + 1 }) := by
  simp [Sqlite.upsert_module, h]

/-- C5: `upsert_module` is idempotent in both realizations — a repeat call
on the same name returns the first call's id and leaves the store (hence
the stored kind and path, including an empty path) unchanged — and an
upsert of a different name answers a different id. -/
theorem c5_upsert_module_idempotent :
    (∀ (st : Sled.SymgraphDb) (n k p k' p' : String),
      Sled.upsert_module ((Sled.upsert_module st n k p).2) n k' p' =
        ((Sled.upsert_module st n k p).1, (Sled.upsert_module st n k p).2)) ∧
    (∀ (d : Sqlite.Db) (n k p k' p' : String),
      Sqlite.upsert_module (Sqlite.upsert_module d n k p).2 n k' p' =
        ((Sqlite.upsert_module d n k p).1, (Sqlite.upsert_module d n k p).2)) ∧
    (∀ (st : Sled.SymgraphDb), SledWF st → ∀ (n k p n' k' p' : String), n ≠ n' →
      (Sled.upsert_module ((Sled.upsert_module st n k p).2) n' k' p').1 ≠
        (Sled.upsert_module st n k p).1) ∧
    (∀ (d : Sqlite.Db), SqlWF d → ∀ (n k p n' k' p' : String), n ≠ n' →
      (Sqlite.upsert_module (Sqlite.upsert_module d n k p).2 n' k' p').1 ≠
        (Sqlite.upsert_module d n k p).1) := by
  refine ⟨sled_upsert_module_repeat, ?_, ?_, ?_⟩
  · intro d n k p k' p'
    cases hf : d.modules.find? (fun m => decide (m.name = n)) with
    | some m =>
      rw [sql_upsert_hit hf k p, sql_upsert_hit hf k' p']
    | none =>
      rw [sql_upsert_miss hf k p]
      have hfind2 : (d.modules ++ ([⟨d.nextModuleId, n, k, p⟩] :
          List Sqlite.ModuleRow)).find? (fun m => decide (m.name = n)) =
          some (⟨d.nextModuleId, n, k, p⟩ : Sqlite.ModuleRow) := by
        rw [List.find?_append, hf]
        simp [List.find?_cons]
      rw [sql_upsert_hit hfind2 k' p']
  · intro st hwf n k p n' k' p' hne
    obtain ⟨hwf1, _, hlt1, hcanon1, _, _⟩ := sledWF_upsert_module hwf n k p
    have hM1 : ∃ M ∈ canonModules (Sled.upsert_module st n k p).2,
        M.name = n ∧ M.id = (Sled.upsert_module st n k p).1 := by
      cases hf : assocFind st.modules (Sled.ModKey.byName n) with
      | some m =>
        rw [sled_upsert_module_hit hf k p]
        have hfm := hf
        rw [sled_find_module_eq hwf] at hfm
        exact ⟨m, List.mem_of_find?_eq_some hfm,
          by simpa using List.find?_some hfm, rfl⟩
      | none =>
        have hnn : n ∉ (canonModules st).map (fun m => m.name) := by
          rw [sled_find_module_eq hwf] at hf
          intro hc
          rcases List.mem_map.mp hc with ⟨m, hm, hmn⟩
          have := List.find?_eq_none.mp hf m hm
          simp [hmn] at this
        refine ⟨⟨st.nextModuleId, "1", n, k, if p = "" then none else some p⟩,
          ?_, rfl, ?_⟩
        · rw [hcanon1, if_neg hnn]
          exact List.mem_append.mpr (Or.inr (List.mem_singleton.mpr rfl))
        · rw [sled_upsert_module_miss hf (modules_key_ne_byId hwf) k p]
    cases hf2 : assocFind (Sled.upsert_module st n k p).2.modules
        (Sled.ModKey.byName n') with
    | some m2 =>
      rw [sled_upsert_module_hit hf2 k' p']
      have hfm2 := hf2
      rw [sled_find_module_eq hwf1] at hfm2
      have hm2mem : m2 ∈ canonModules (Sled.upsert_module st n k p).2 :=
        List.mem_of_find?_eq_some hfm2
      have hm2name : m2.name = n' := by simpa using List.find?_some hfm2
      obtain ⟨M, hMmem, hMname, hMid⟩ := hM1
      intro hc
      have hMm : m2 = M := uniq_by_keyfn (fun m => m.id) hwf1.modules_ids_nodup
        m2 hm2mem M hMmem (by show m2.id = M.id; rw [hMid]; exact hc)
      apply hne
      rw [← hMname, ← hMm]
      exact hm2name
    | none =>
      rw [sled_upsert_module_miss hf2 (modules_key_ne_byId hwf1) k' p']
      intro hc
      exact absurd (hc ▸ hlt1) (lt_irrefl _)
  · intro d hwf n k p n' k' p' hne
    obtain ⟨hwf1, _, _, _⟩ := sqlWF_upsert_module hwf n k p
    have hM1 : ∃ M ∈ (Sqlite.upsert_module d n k p).2.modules,
        M.name = n ∧ M.id = (Sqlite.upsert_module d n k p).1 := by
      cases hf : d.modules.find? (fun m => decide (m.name = n)) with
      | some m =>
        rw [sql_upsert_hit hf k p]
        exact ⟨m, List.mem_of_find?_eq_some hf, by simpa using List.find?_some hf, rfl⟩
      | none =>
        rw [sql_upsert_miss hf k p]
        exact ⟨⟨d.nextModuleId, n, k, p⟩,
          List.mem_append.mpr (Or.inr (List.mem_singleton.mpr rfl)), rfl, rfl⟩
    have hlt1 : (Sqlite.upsert_module d n k p).1 <
        (Sqlite.upsert_module d n k p).2.nextModuleId := by
      cases hf : d.modules.find? (fun m => decide (m.name = n)) with
      | some m =>
        rw [sql_upsert_hit hf k p]
        exact hwf.modules_lt m (List.mem_of_find?_eq_some hf)
      | none =>
        rw [sql_upsert_miss hf k p]
        exact Nat.lt_succ_self _
    cases hf2 : (Sqlite.upsert_module d n k p).2.modules.find?
        (fun m => decide (m.name = n')) with
    | some m2 =>
      rw [sql_upsert_hit hf2 k' p']
      have hm2mem : m2 ∈ (Sqlite.upsert_module d n k p).2.modules :=
        List.mem_of_find?_eq_some hf2
      have hm2name : m2.name = n' := by simpa using List.find?_some hf2
      obtain ⟨M, hMmem, hMname, hMid⟩ := hM1
      intro hc
      have hMm : m2 = M := uniq_by_keyfn (fun m => m.id) hwf1.modules_ids_nodup
        m2 hm2mem M hMmem (by show m2.id = M.id; rw [hMid]; exact hc)
      apply hne
      rw [← hMname, ← hMm]
      exact hm2name
    | none =>
      rw [sql_upsert_miss hf2 k' p']
      intro hc
      exact absurd (hc ▸ hlt1) (lt_irrefl _)

/-- C5 witness at a concrete input. -/
theorem c5_witness :
    SledWF Sled.emptyDb ∧ ("a" : String) ≠ "b" ∧
    (Sled.upsert_module ((Sled.upsert_module Sled.emptyDb "a" "k" "p").2)
        "b" "k" "p").1 ≠
      (Sled.upsert_module Sled.emptyDb "a" "k" "p").1 :=
  ⟨sledWF_emptyDb, by decide,
   c5_upsert_module_idempotent.2.2.1 Sled.emptyDb sledWF_emptyDb
     "a" "k" "p" "b" "k" "p" (by decide)⟩

/-- C6 (counterexample): on a reachable SQLite store in which two symbols
(ids 1 and 2) carry the usr `"u"` and the only `call` edge runs from
symbol 2 to symbol 3, `find_symbol_by_usr "u"` resolves to symbol 1, yet
`query_edges_by_kind_from "call" "u"` — whose join filters on `s1.usr`,
not on the resolved id — returns the name of that edge's target even
though no stored `call` edge has source 1.  The query therefore does not
return "exactly the edges whose source is the resolved id" on the
relational realization. -/
theorem c6_counterexample :
    Sqlite.find_symbol_by_usr (runSqlFrom Sqlite.emptyDb
      [Op.insertSymbol 1 (some "u") none "a" "F" true,
       Op.insertSymbol 1 (some "u") none "b" "F" true,
       Op.insertSymbol 1 none none "baz" "F" true,
       Op.insertEdge (some 2) (some 3) none none "call"]).1 "u" = some 1 ∧
    Sqlite.query_edges_by_kind_from (runSqlFrom Sqlite.emptyDb
      [Op.insertSymbol 1 (some "u") none "a" "F" true,
       Op.insertSymbol 1 (some "u") none "b" "F" true,
       Op.insertSymbol 1 none none "baz" "F" true,
       Op.insertEdge (some 2) (some 3) none none "call"]).1 "call" "u" =
      ["baz"] ∧
    (runSqlFrom Sqlite.emptyDb
      [Op.insertSymbol 1 (some "u") none "a" "F" true,
       Op.insertSymbol 1 (some "u") none "b" "F" true,
       Op.insertSymbol 1 none none "baz" "F" true,
       Op.insertEdge (some 2) (some 3) none none "call"]).1.edges.filter
      (fun e => decide (e.from_sym = some 1) && decide (e.kind = "call")) =
      [] := by
  decide

/-- C6 (amended): in the key-value realization, on a well-formed store,
when the usr resolves to symbol id `sid`, `query_edges_by_kind_from`
returns — up to the backend's enumeration order — exactly the display
names of the targets of all stored edges of the requested kind whose
source is `sid`, skipping a target whose symbol record is missing, with
duplicate edges contributing duplicate names.  The relational realization
satisfies the same property only when no usr is carried by two stored
symbol rows (its join filters on `s1.usr`, so with a duplicated usr it
also returns edges sourced from the non-resolved carriers — see the
counterexample): under unique row ids and unique usrs, when the usr
resolves to `sid`, the join returns exactly the names of the targets of
the stored edges of the requested kind with source `sid`, dangling
targets skipped, duplicates kept, in edge-table order. -/
theorem c6_query_exact_names :
    (∀ (st : Sled.SymgraphDb), SledWF st → ∀ (k u : String) (sid : Nat),
      Sled.find_symbol_by_usr st u = some sid →
      (Sled.query_edges_by_kind_from st k u).Perm
        (((st.edges.map (fun ent => ent.2)).filter
            (fun e => decide (e.from_sym = some sid) && decide (e.kind = k))).filterMap
          (fun e => match e.to_sym with
            | none => none
            | some j => (assocFind st.symbols j).map (fun s => s.name)))) ∧
    (∀ (d : Sqlite.Db), (d.symbols.map (fun s => s.id)).Nodup →
      (symUsrs d).Nodup → ∀ (k u : String) (sid : Nat),
      Sqlite.find_symbol_by_usr d u = some sid →
      Sqlite.query_edges_by_kind_from d k u =
        (d.edges.filter
            (fun e => decide (e.from_sym = some sid) && decide (e.kind = k))).filterMap
          (fun e => match e.to_sym with
            | none => none
            | some j => (d.symbols.find? (fun s => decide (s.id = j))).map
                (fun s => s.name))) := by
  constructor
  · intro st hwf k u sid hfind
    have h1 : ∀ L : List (Nat × Edge), L.filterMap (fun ent =>
        ent.2.from_sym.map (fun f => ((f, ent.2.kind, ent.2.id), ent.2))) =
        (L.map (fun ent => ent.2)).filterMap
          (fun e => e.from_sym.map (fun f => ((f, e.kind, e.id), e))) := by
      intro L
      induction L with
      | nil => rfl
      | cons a t ih => simp [List.filterMap_cons, List.map_cons, ih]
    have heq : Sled.query_edges_by_kind_from st k u =
        ((st.edges.map (fun ent => ent.2)).filter
          (fun e => decide (e.from_sym = some sid) && decide (e.kind = k))).filterMap
          (fun e => match e.to_sym with
            | none => none
            | some j => (assocFind st.symbols j).map (fun s => s.name)) := by
      unfold Sled.query_edges_by_kind_from
      simp only [hfind]
      rw [hwf.edgesFrom_shape, h1]
      exact scan_vs_edges (st.edges.map (fun ent => ent.2)) sid k
        (fun e => match e.to_sym with
          | none => none
          | some j => (assocFind st.symbols j).map (fun s => s.name))
    rw [heq]
  · intro d hids husr k u sid hfind
    obtain ⟨s₀, hs₀find, hs₀id⟩ : ∃ s₀,
        d.symbols.find? (fun s => decide (s.usr = some u)) = some s₀ ∧
          s₀.id = sid := by
      unfold Sqlite.find_symbol_by_usr at hfind
      cases hf : d.symbols.find? (fun s => decide (s.usr = some u)) with
      | none => rw [hf] at hfind; simp at hfind
      | some s₀ =>
        rw [hf] at hfind
        exact ⟨s₀, rfl, by simpa using hfind⟩
    have hs₀mem : s₀ ∈ d.symbols := List.mem_of_find?_eq_some hs₀find
    have hs₀usr : s₀.usr = some u := by simpa using List.find?_some hs₀find
    exact (query_join_aux d.symbols d.edges k u sid s₀ hs₀mem hs₀usr hs₀id
      hids husr).symm.trans
      (scan_vs_edges d.edges sid k
        (fun e => match e.to_sym with
          | none => none
          | some j => (d.symbols.find? (fun s => decide (s.id = j))).map
              (fun s => s.name)))

/-- C6 witness at concrete inputs, one per realization. -/
theorem c6_witness :
    (SledWF (runSledFrom Sled.emptyDb
      [Op.insertSymbol 1 (some "m") none "main" "F" true,
       Op.insertSymbol 1 (some "f") none "foo" "F" true,
       Op.insertEdge (some 1) (some 2) none none "call"]).1 ∧
    Sled.find_symbol_by_usr (runSledFrom Sled.emptyDb
      [Op.insertSymbol 1 (some "m") none "main" "F" true,
       Op.insertSymbol 1 (some "f") none "foo" "F" true,
       Op.insertEdge (some 1) (some 2) none none "call"]).1 "m" = some 1 ∧
    (Sled.query_edges_by_kind_from (runSledFrom Sled.emptyDb
      [Op.insertSymbol 1 (some "m") none "main" "F" true,
       Op.insertSymbol 1 (some "f") none "foo" "F" true,
       Op.insertEdge (some 1) (some 2) none none "call"]).1 "call" "m").Perm
      ((((runSledFrom Sled.emptyDb
        [Op.insertSymbol 1 (some "m") none "main" "F" true,
         Op.insertSymbol 1 (some "f") none "foo" "F" true,
         Op.insertEdge (some 1) (some 2) none none "call"]).1.edges.map
          (fun ent => ent.2)).filter
        (fun e => decide (e.from_sym = some 1) && decide (e.kind = "call"))).filterMap
        (fun e => match e.to_sym with
          | none => none
          | some j => (assocFind (runSledFrom Sled.emptyDb
            [Op.insertSymbol 1 (some "m") none "main" "F" true,
             Op.insertSymbol 1 (some "f") none "foo" "F" true,
             Op.insertEdge (some 1) (some 2) none none "call"]).1.symbols j).map
            (fun s => s.name)))) ∧
    (((runSqlFrom Sqlite.emptyDb
      [Op.insertSymbol 1 (some "m") none "main" "F" true,
       Op.insertSymbol 1 (some "f") none "foo" "F" true,
       Op.insertEdge (some 1) (some 2) none none "call"]).1.symbols.map
        (fun s => s.id)).Nodup ∧
    (symUsrs (runSqlFrom Sqlite.emptyDb
      [Op.insertSymbol 1 (some "m") none "main" "F" true,
       Op.insertSymbol 1 (some "f") none "foo" "F" true,
       Op.insertEdge (some 1) (some 2) none none "call"]).1).Nodup ∧
    Sqlite.find_symbol_by_usr (runSqlFrom Sqlite.emptyDb
      [Op.insertSymbol 1 (some "m") none "main" "F" true,
       Op.insertSymbol 1 (some "f") none "foo" "F" true,
       Op.insertEdge (some 1) (some 2) none none "call"]).1 "m" = some 1 ∧
    Sqlite.query_edges_by_kind_from (runSqlFrom Sqlite.emptyDb
      [Op.insertSymbol 1 (some "m") none "main" "F" true,
       Op.insertSymbol 1 (some "f") none "foo" "F" true,
       Op.insertEdge (some 1) (some 2) none none "call"]).1 "call" "m" =
      ((runSqlFrom Sqlite.emptyDb
        [Op.insertSymbol 1 (some "m") none "main" "F" true,
         Op.insertSymbol 1 (some "f") none "foo" "F" true,
         Op.insertEdge (some 1) (some 2) none none "call"]).1.edges.filter
          (fun e => decide (e.from_sym = some 1) && decide (e.kind = "call"))).filterMap
        (fun e => match e.to_sym with
          | none => none
          | some j => ((runSqlFrom Sqlite.emptyDb
            [Op.insertSymbol 1 (some "m") none "main" "F" true,
             Op.insertSymbol 1 (some "f") none "foo" "F" true,
             Op.insertEdge (some 1) (some 2) none none "call"]).1.symbols.find?
              (fun s => decide (s.id = j))).map (fun s => s.name))) :=
  ⟨⟨(sled_run_wf
      [Op.insertSymbol 1 (some "m") none "main" "F" true,
       Op.insertSymbol 1 (some "f") none "foo" "F" true,
       Op.insertEdge (some 1) (some 2) none none "call"]
      Sled.emptyDb sledWF_emptyDb).1,
   by decide,
   c6_query_exact_names.1 _
     (sled_run_wf
       [Op.insertSymbol 1 (some "m") none "main" "F" true,
        Op.insertSymbol 1 (some "f") none "foo" "F" true,
        Op.insertEdge (some 1) (some 2) none none "call"]
       Sled.emptyDb sledWF_emptyDb).1
     "call" "m" 1 (by decide)⟩,
   ⟨by decide, by decide, by decide,
    c6_query_exact_names.2 _ (by decide) (by decide) "call" "m" 1 (by decide)⟩⟩

/-- C8 (counterexample): a module-pair `insert_edge` (no symbol source)
stores the primary edge record but writes no composite `edges_from:` index
record, contradicting "regardless of the addressing mode". -/
theorem c8_counterexample :
    (Sled.insert_edge Sled.emptyDb none none (some 1) (some 1)
      "module-import").2.edgesFrom = [] ∧
    (Sled.insert_edge Sled.emptyDb none none (some 1) (some 1)
      "module-import").2.edges ≠ [] := by
  decide

/-- C8 (amended): an `insert_edge` call with a symbol source writes, in
addition to the primary edge record, the composite index record under
`(source id, edge kind, edge id)`; a module-pair call (absent `from_sym`)
writes no composite index record; and on a well-formed store every stored
edge of kind `k` with symbol source `s` is reachable by the prefix scan of
the composite index. -/
theorem c8_composite_index :
    (∀ (st : Sled.SymgraphDb) (f : Nat) (ts fm tm : Option Nat) (k : String),
      (Sled.insert_edge st (some f) ts fm tm k).2.edges =
        assocInsert st.edges st.nextEdgeId ⟨st.nextEdgeId, some f, ts, fm, tm, k⟩ ∧
      assocFind (Sled.insert_edge st (some f) ts fm tm k).2.edgesFrom
          (f, k, st.nextEdgeId) = some ⟨st.nextEdgeId, some f, ts, fm, tm, k⟩) ∧
    (∀ (st : Sled.SymgraphDb) (ts fm tm : Option Nat) (k : String),
      (Sled.insert_edge st none ts fm tm k).2.edgesFrom = st.edgesFrom ∧
      (Sled.insert_edge st none ts fm tm k).2.edges =
        assocInsert st.edges st.nextEdgeId ⟨st.nextEdgeId, none, ts, fm, tm, k⟩) ∧
    (∀ (st : Sled.SymgraphDb), SledWF st → ∀ (s : Nat) (k : String),
      ∀ ent ∈ st.edges, ent.2.from_sym = some s → ent.2.kind = k →
        ((s, k, ent.2.id), ent.2) ∈ st.edgesFrom.filter
          (fun x => decide (x.1.1 = s) && decide (x.1.2.1 = k))) := by
  refine ⟨?_, ?_, ?_⟩
  · intro st f ts fm tm k
    constructor
    · rfl
    · show assocFind (assocInsert st.edgesFrom (f, k, st.nextEdgeId) _) _ = _
      exact assocFind_assocInsert_self _ _ _
  · intro st ts fm tm k
    exact ⟨rfl, rfl⟩
  · intro st hwf s k ent hent hfs hkind
    apply List.mem_filter.mpr
    constructor
    · rw [hwf.edgesFrom_shape]
      apply List.mem_filterMap.mpr
      refine ⟨ent, hent, ?_⟩
      rw [hfs, Option.map_some', hkind]
    · simp

/-- C8 witness at a concrete input. -/
theorem c8_witness :
    SledWF Sled.emptyDb ∧
    ((1, "call", 1), (⟨1, some 1, some 2, none, none, "call"⟩ : Edge)) ∈
      ((Sled.insert_edge Sled.emptyDb (some 1) (some 2) none none
        "call").2.edgesFrom.filter
        (fun x => decide (x.1.1 = 1) && decide (x.1.2.1 = "call"))) :=
  ⟨sledWF_emptyDb,
   c8_composite_index.2.2 (Sled.insert_edge Sled.emptyDb (some 1) (some 2) none none
       "call").2
     (sledWF_insert_edge sledWF_emptyDb (some 1) (some 2) none none "call").1
     1 "call" (1, ⟨1, some 1, some 2, none, none, "call"⟩) (by decide) (by decide)
     (by decide)⟩

/-- C10: every file created by `ensure_file` is stored twice under the
`file:` namespace (once under its path key, once under its id key): the
namespace holds exactly the path/id pair of entries per file, `get_stats`
reports a files count of twice the number of distinct ensured paths, and
`list_files` returns each file exactly twice. -/
theorem c10_files_double (ops : List Op) :
    (runSledFrom Sled.emptyDb ops).1.files =
      (canonFiles (runSledFrom Sled.emptyDb ops).1).flatMap filePair ∧
    (Sled.get_stats (runSledFrom Sled.emptyDb ops).1).files =
      2 * ((ensPaths ops).toFinset.card) ∧
    (∀ x ∈ Sled.list_files (runSledFrom Sled.emptyDb ops).1,
      (Sled.list_files (runSledFrom Sled.emptyDb ops).1).count x = 2) := by
  obtain ⟨Hwf, _, _, Hpaths⟩ := sled_run_wf ops Sled.emptyDb sledWF_emptyDb
  refine ⟨Hwf.files_shape, ?_, ?_⟩
  · show (runSledFrom Sled.emptyDb ops).1.files.length = _
    rw [Hwf.files_shape, length_flatMap_filePair]
    congr 1
    have hnodup := Hwf.files_paths_nodup
    have hlen : (canonFiles (runSledFrom Sled.emptyDb ops).1).length =
        ((canonFiles (runSledFrom Sled.emptyDb ops).1).map
          (fun f => f.path)).length := (List.length_map _ _).symm
    rw [hlen, ← List.toFinset_card_of_nodup hnodup]
    congr 1
    apply Finset.ext
    intro q
    simp only [List.mem_toFinset]
    have h := Hpaths q
    simpa [canonFiles, Sled.emptyDb] using h
  · intro x hx
    have hlist : Sled.list_files (runSledFrom Sled.emptyDb ops).1 =
        (canonFiles (runSledFrom Sled.emptyDb ops).1).flatMap (fun F =>
          [⟨F.id, F.path, F.lang, F.category.getD "", F.purpose.getD ""⟩,
           ⟨F.id, F.path, F.lang, F.category.getD "", F.purpose.getD ""⟩]) := by
      show (runSledFrom Sled.emptyDb ops).1.files.map _ = _
      rw [Hwf.files_shape, map_flatMap_filePair]
    rw [hlist] at hx ⊢
    rw [count_flatMap_double (fun F => (⟨F.id, F.path, F.lang, F.category.getD "",
      F.purpose.getD ""⟩ : Sled.FileInfo)) (canonFiles (runSledFrom Sled.emptyDb
        ops).1) x]
    have hmapids : (((canonFiles (runSledFrom Sled.emptyDb ops).1).map
        (fun F => (⟨F.id, F.path, F.lang, F.category.getD "", F.purpose.getD ""⟩ :
          Sled.FileInfo))).map (fun fi => fi.id)) =
        (canonFiles (runSledFrom Sled.emptyDb ops).1).map (fun F => F.id) := by
      rw [List.map_map]
      rfl
    have hnodup : ((canonFiles (runSledFrom Sled.emptyDb ops).1).map
        (fun F => (⟨F.id, F.path, F.lang, F.category.getD "", F.purpose.getD ""⟩ :
          Sled.FileInfo))).Nodup := by
      apply List.Nodup.of_map (fun fi : Sled.FileInfo => fi.id)
      rw [hmapids]
      exact Hwf.files_ids_nodup
    have hmem : x ∈ (canonFiles (runSledFrom Sled.emptyDb ops).1).map
        (fun F => (⟨F.id, F.path, F.lang, F.category.getD "", F.purpose.getD ""⟩ :
          Sled.FileInfo)) := by
      rcases List.mem_flatMap.mp hx with ⟨F, hF, hxF⟩
      simp only [List.mem_cons, List.not_mem_nil, or_false] at hxF
      rcases hxF with rfl | rfl <;> exact List.mem_map.mpr ⟨F, hF, rfl⟩
    rw [List.count_eq_one_of_mem hnodup hmem]

/-- C10 witness at a concrete input. -/
theorem c10_witness :
    (⟨1, "f", "c", "", ""⟩ : Sled.FileInfo) ∈
      Sled.list_files (runSledFrom Sled.emptyDb [Op.ensureFile "f" "c"]).1 ∧
    (Sled.list_files (runSledFrom Sled.emptyDb [Op.ensureFile "f" "c"]).1).count
      ⟨1, "f", "c", "", ""⟩ = 2 :=
  ⟨by decide,
   (c10_files_double [Op.ensureFile "f" "c"]).2.2 ⟨1, "f", "c", "", ""⟩ (by decide)⟩

/-- C1 (counterexample): the two realizations disagree on a sequence that
inserts the same usr twice; the relational lookup then answers the first
inserted symbol while the key-value lookup answers the last one, so the
answer logs of the two realizations differ. -/
theorem c1_counterexample :
    ¬ List.Forall₂ AnsRel
      (runSqlFrom Sqlite.emptyDb
        [Op.insertSymbol 1 (some "u") none "a" "F" true,
         Op.insertSymbol 1 (some "u") none "b" "F" true,
         Op.findSymbol "u"]).2
      (runSledFrom Sled.emptyDb
        [Op.insertSymbol 1 (some "u") none "a" "F" true,
         Op.insertSymbol 1 (some "u") none "b" "F" true,
         Op.findSymbol "u"]).2 := by
  intro h
  have hsql : (runSqlFrom Sqlite.emptyDb
      [Op.insertSymbol 1 (some "u") none "a" "F" true,
       Op.insertSymbol 1 (some "u") none "b" "F" true,
       Op.findSymbol "u"]).2 =
      [Ans.idA 1, Ans.idA 2, Ans.foundA (some 1)] := by decide
  have hsled : (runSledFrom Sled.emptyDb
      [Op.insertSymbol 1 (some "u") none "a" "F" true,
       Op.insertSymbol 1 (some "u") none "b" "F" true,
       Op.findSymbol "u"]).2 =
      [Ans.idA 1, Ans.idA 2, Ans.foundA (some 2)] := by decide
  rw [hsql, hsled] at h
  have h1 := (List.forall₂_cons.mp h).2
  have h2 := (List.forall₂_cons.mp h1).2
  have h3 := (List.forall₂_cons.mp h2).1
  simp [AnsRel] at h3

/-- C1 (amended): for every call sequence in which each usr is supplied to
`insert_symbol` at most once, the two realizations answer identically —
equal ids (along the allocation-order identification of the two opaque id
spaces), equal usr-lookup results, and edge-query name lists equal up to
the backends' enumeration order.  On a sequence that inserts some usr
twice the realizations diverge (see the counterexample): the relational
`find_symbol_by_usr` resolves to the first inserted symbol, the key-value
one to the last. -/
theorem c1_refinement (ops : List Op) (h : (opUsrs ops).Nodup) :
    List.Forall₂ AnsRel (runSqlFrom Sqlite.emptyDb ops).2
      (runSledFrom Sled.emptyDb ops).2 := by
  have hr := run_sim ops Sqlite.emptyDb sqlWF_emptyDb
    (by simpa [symUsrs, Sqlite.emptyDb] using h)
  rw [repr_emptyDb] at hr
  exact hr.2

/-- C1 witness at a concrete input. -/
theorem c1_witness :
    (opUsrs [Op.insertSymbol 1 (some "u") none "a" "F" true,
      Op.findSymbol "u"]).Nodup ∧
    List.Forall₂ AnsRel
      (runSqlFrom Sqlite.emptyDb
        [Op.insertSymbol 1 (some "u") none "a" "F" true, Op.findSymbol "u"]).2
      (runSledFrom Sled.emptyDb
        [Op.insertSymbol 1 (some "u") none "a" "F" true, Op.findSymbol "u"]).2 :=
  ⟨by decide,
   c1_refinement [Op.insertSymbol 1 (some "u") none "a" "F" true, Op.findSymbol "u"]
     (by decide)⟩

/-- C2 (counterexample): after inserting the same usr twice into the
relational realization (ids 1 then 2), `find_symbol_by_usr` answers the id
of the first insert, not the most recently inserted one. -/
theorem c2_counterexample :
    (runSqlFrom Sqlite.emptyDb
      [Op.insertSymbol 1 (some "u") none "a" "F" true,
       Op.insertSymbol 1 (some "u") none "b" "F" true]).2 =
      [Ans.idA 1, Ans.idA 2] ∧
    Sqlite.find_symbol_by_usr (runSqlFrom Sqlite.emptyDb
      [Op.insertSymbol 1 (some "u") none "a" "F" true,
       Op.insertSymbol 1 (some "u") none "b" "F" true]).1 "u" = some 1 ∧
    some (1 : Nat) ≠ some 2 := by
  decide

/-- C2 (amended): inserting the same usr twice leaves two distinct live
symbol records in either realization, with the first record unmodified; the
key-value realization's lookup then resolves to the most recently inserted
id, while the relational realization's lookup resolves to the earliest
stored symbol carrying the usr (here: the first of the two inserts). -/
theorem c2_insert_symbol_twice (st : Sled.SymgraphDb) (hwf : SledWF st)
    (d : Sqlite.Db) (u : String) (hnou : ∀ s ∈ d.symbols, ¬ s.usr = some u)
    (fid fid' : Nat) (key key' : Option String) (nm nm' kd kd' : String)
    (df df' : Bool) :
    ((Sled.insert_symbol (Sled.insert_symbol st fid (some u) key nm kd df).2
        fid' (some u) key' nm' kd' df').1 ≠
      (Sled.insert_symbol st fid (some u) key nm kd df).1) ∧
    (assocFind (Sled.insert_symbol (Sled.insert_symbol st fid (some u) key nm kd
        df).2 fid' (some u) key' nm' kd' df').2.symbols
        (Sled.insert_symbol st fid (some u) key nm kd df).1 =
      some (⟨(Sled.insert_symbol st fid (some u) key nm kd df).1, fid, some u,
        key, nm, kd, df⟩ : Symbol)) ∧
    (assocFind (Sled.insert_symbol (Sled.insert_symbol st fid (some u) key nm kd
        df).2 fid' (some u) key' nm' kd' df').2.symbols
        (Sled.insert_symbol (Sled.insert_symbol st fid (some u) key nm kd df).2
          fid' (some u) key' nm' kd' df').1 =
      some (⟨(Sled.insert_symbol (Sled.insert_symbol st fid (some u) key nm kd
        df).2 fid' (some u) key' nm' kd' df').1, fid', some u, key', nm', kd',
        df'⟩ : Symbol)) ∧
    (Sled.find_symbol_by_usr (Sled.insert_symbol (Sled.insert_symbol st fid
        (some u) key nm kd df).2 fid' (some u) key' nm' kd' df').2 u =
      some (Sled.insert_symbol (Sled.insert_symbol st fid (some u) key nm kd
        df).2 fid' (some u) key' nm' kd' df').1) ∧
    ((Sqlite.insert_symbol (Sqlite.insert_symbol d fid (some u) key nm kd df).2
        fid' (some u) key' nm' kd' df').1 ≠
      (Sqlite.insert_symbol d fid (some u) key nm kd df).1) ∧
    ((Sqlite.insert_symbol (Sqlite.insert_symbol d fid (some u) key nm kd df).2
        fid' (some u) key' nm' kd' df').2.symbols =
      d.symbols ++
        [⟨(Sqlite.insert_symbol d fid (some u) key nm kd df).1, fid, some u,
          key, nm, kd, df⟩,
         ⟨(Sqlite.insert_symbol (Sqlite.insert_symbol d fid (some u) key nm kd
            df).2 fid' (some u) key' nm' kd' df').1, fid', some u, key', nm',
          kd', df'⟩]) ∧
    (Sqlite.find_symbol_by_usr (Sqlite.insert_symbol (Sqlite.insert_symbol d fid
        (some u) key nm kd df).2 fid' (some u) key' nm' kd' df').2 u =
      some (Sqlite.insert_symbol d fid (some u) key nm kd df).1) := by
  have hwf1 := (sledWF_insert_symbol hwf fid (some u) key nm kd df).1
  have hsy1 : (Sled.insert_symbol st fid (some u) key nm kd df).2.symbols =
      st.symbols ++ [(st.nextSymbolId,
        ⟨st.nextSymbolId, fid, some u, key, nm, kd, df⟩)] := by
    show assocInsert st.symbols st.nextSymbolId _ = _
    exact assocInsert_of_forall_ne _ (symbols_key_ne hwf)
  have hsy2 : (Sled.insert_symbol (Sled.insert_symbol st fid (some u) key nm kd
      df).2 fid' (some u) key' nm' kd' df').2.symbols =
      (Sled.insert_symbol st fid (some u) key nm kd df).2.symbols ++
        [(st.nextSymbolId + 1,
          ⟨st.nextSymbolId + 1, fid', some u, key', nm', kd', df'⟩)] := by
    show assocInsert (Sled.insert_symbol st fid (some u) key nm kd df).2.symbols
      (Sled.insert_symbol st fid (some u) key nm kd df).2.nextSymbolId _ = _
    exact assocInsert_of_forall_ne _ (symbols_key_ne hwf1)
  have hf0 : assocFind st.symbols st.nextSymbolId = none :=
    assocFind_eq_none_iff.mpr (symbols_key_ne hwf)
  have hf1 : assocFind (Sled.insert_symbol st fid (some u) key nm kd
      df).2.symbols (st.nextSymbolId + 1) = none :=
    assocFind_eq_none_iff.mpr (symbols_key_ne hwf1)
  refine ⟨?_, ?_, ?_, ?_, ?_, ?_, ?_⟩
  · show st.nextSymbolId + 1 ≠ st.nextSymbolId
    exact Nat.succ_ne_self _
  · show assocFind _ st.nextSymbolId = _
    rw [hsy2, assocFind_append, hsy1, assocFind_append, hf0]
    rw [assocFind_cons]
    simp
    rfl
  · show assocFind _ (st.nextSymbolId + 1) = _
    rw [hsy2, assocFind_append, hf1]
    rw [assocFind_cons]
    simp
    rfl
  · show assocFind (assocInsert
        (Sled.insert_symbol st fid (some u) key nm kd df).2.symbolByUsr u
        (Sled.insert_symbol st fid (some u) key nm kd df).2.nextSymbolId) u = _
    exact assocFind_assocInsert_self _ _ _
  · show d.nextSymbolId + 1 ≠ d.nextSymbolId
    exact Nat.succ_ne_self _
  · show (d.symbols ++ [_]) ++ [_] = _
    rw [List.append_assoc]
    rfl
  · have hfq : d.symbols.find? (fun s => decide (s.usr = some u)) = none := by
      rw [List.find?_eq_none]
      intro s hs
      simpa using hnou s hs
    show (((d.symbols ++
          ([⟨d.nextSymbolId, fid, some u, key, nm, kd, df⟩] : List Symbol)) ++
          ([⟨d.nextSymbolId + 1, fid', some u, key', nm', kd', df'⟩] :
            List Symbol)).find?
        (fun s => decide (s.usr = some u))).map (fun s => s.id) =
      some d.nextSymbolId
    rw [List.find?_append, List.find?_append, hfq]
    simp [List.find?_cons]

/-- C2 witness at a concrete input. -/
theorem c2_witness :
    SledWF Sled.emptyDb ∧
    (∀ s ∈ Sqlite.emptyDb.symbols, ¬ s.usr = some "u") ∧
    Sled.find_symbol_by_usr (Sled.insert_symbol (Sled.insert_symbol Sled.emptyDb
        1 (some "u") none "a" "F" true).2 1 (some "u") none "b" "F" true).2 "u" =
      some (Sled.insert_symbol (Sled.insert_symbol Sled.emptyDb 1 (some "u")
        none "a" "F" true).2 1 (some "u") none "b" "F" true).1 ∧
    Sqlite.find_symbol_by_usr (Sqlite.insert_symbol (Sqlite.insert_symbol
        Sqlite.emptyDb 1 (some "u") none "a" "F" true).2 1 (some "u") none "b"
        "F" true).2 "u" =
      some (Sqlite.insert_symbol Sqlite.emptyDb 1 (some "u") none "a" "F"
        true).1 :=
  ⟨sledWF_emptyDb, by simp [Sqlite.emptyDb],
   (c2_insert_symbol_twice Sled.emptyDb sledWF_emptyDb Sqlite.emptyDb "u"
     (by simp [Sqlite.emptyDb]) 1 1 none none "a" "b" "F" "F" true true).2.2.2.1,
   (c2_insert_symbol_twice Sled.emptyDb sledWF_emptyDb Sqlite.emptyDb "u"
     (by simp [Sqlite.emptyDb]) 1 1 none none "a" "b" "F" "F" true true).2.2.2.2.2.2⟩

/-- C9 witness at a concrete input. -/
theorem c9_witness :
    assocFind Sled.emptyDb.projects (Sled.ProjKey.byRoot "/r") = none ∧
    (assocFind (Sled.ensure_project Sled.emptyDb "p" "/r" "t").2.projects
        (Sled.ProjKey.byRoot "/r") =
      some ⟨(Sled.ensure_project Sled.emptyDb "p" "/r" "t").1, "p", "/r",
        none, none, none, none, "t"⟩) ∧
    Sled.ensure_project (Sled.ensure_project Sled.emptyDb "p" "/r" "t").2 "q" "/r" "s" =
      ((Sled.ensure_project Sled.emptyDb "p" "/r" "t").1,
       (Sled.ensure_project Sled.emptyDb "p" "/r" "t").2) :=
  ⟨rfl,
   ((c9_ensure_project_first_writer_wins Sled.emptyDb "p" "/r" "t").2 rfl).1,
   ((c9_ensure_project_first_writer_wins Sled.emptyDb "p" "/r" "t").2 rfl).2 "q" "s"⟩

end Symgraph
